import Mathlib

/-!
Verification of the slab-linked-list library: a doubly linked list whose
nodes live in a slab arena and whose links are integer keys.

The embedding follows `src/lib.rs`. Every fallible operation returns
`Except (SlabLinkedList T) r`: an `Except.error s` result models a Rust
panic (a failed `expect`, `unwrap`, `assert!` or `assert_eq!`), with `s`
the contents of the structure at the moment the panic fires, so that the
no-partial-mutation claims can be inspected. `Except.ok` carries the
return value together with the updated structure.

Modelled from the spec: the backing store (the `slab` crate) is the
external collaborator of spec sections 1, 2 and 6 and its code is not part
of this repository. It is modelled faithfully to the stated contract as a
vector of optional records: insertion stores the record in the lowest
vacant slot (reusing freed slots) and returns that index as the key;
lookup and removal are by index; the length counts occupied slots. The
claims under verification do not depend on which vacant slot the store
reuses. The `get_unchecked` accesses of `front`/`back` are modelled as
checked lookups; claim C10 establishes that on reachable states the slot
is always occupied, which is exactly the safety condition of the
unchecked access.
-/

set_option autoImplicit false

namespace SlabList

variable {T : Type}

/-- Per-element record stored in the slab: payload plus link fields,
mirroring `struct Item<T>` of the source. -/
structure Item (T : Type) where
  value : T
  key : Option Nat
  prev : Option Nat
  next : Option Nat
  deriving DecidableEq

/-- Fresh record as built by `impl From<T> for Item<T>`. -/
def itemFrom (v : T) : Item T :=
  { value := v, key := none, prev := none, next := none }

/-- Lookup by key in the store: `slab.get(key)` (vacant or out of range
gives `none`). -/
def slabGet {α : Type} : List (Option α) → Nat → Option α
  | [], _ => none
  | o :: _, 0 => o
  | _ :: rest, k + 1 => slabGet rest k

/-- Overwrite the slot at a key; out-of-range keys leave the store
unchanged (all uses are at occupied keys). -/
def slabSet {α : Type} : List (Option α) → Nat → Option α → List (Option α)
  | [], _, _ => []
  | _ :: rest, 0, v => v :: rest
  | o :: rest, k + 1, v => o :: slabSet rest k v

/-- Number of occupied slots: `slab.len()`. -/
def slabLen {α : Type} : List (Option α) → Nat
  | [] => 0
  | none :: rest => slabLen rest
  | some _ :: rest => slabLen rest + 1

/-- Insertion into the store: `slab.insert(value)` places the value in
the lowest vacant slot, extending the vector when full, and returns the
chosen key together with the updated store. -/
def slabInsert {α : Type} (a : α) : List (Option α) → Nat × List (Option α)
  | [] => (0, [some a])
  | none :: rest => (0, some a :: rest)
  | some b :: rest =>
    let r := slabInsert a rest
    (r.1 + 1, some b :: r.2)

/-- The list structure of the source: the slab of records plus the two
optional end keys. -/
structure SlabLinkedList (T : Type) where
  slab : List (Option (Item T))
  head : Option Nat
  tail : Option Nat
  deriving DecidableEq

namespace SlabLinkedList

/-- Empty list, as built by `new()` / `Default::default()`. -/
def new : SlabLinkedList T := ⟨[], none, none⟩

/-- Number of live elements: `len()` delegates to the slab. -/
def len (l : SlabLinkedList T) : Nat := slabLen l.slab

/-- Emptiness test: `is_empty()` delegates to the slab. -/
def isEmpty (l : SlabLinkedList T) : Bool := slabLen l.slab == 0

/-- Lookup of a payload by key: `get(key)`. -/
def get (l : SlabLinkedList T) (key : Nat) : Option T :=
  (slabGet l.slab key).map Item.value

/-- First payload: `front()`; the source reads the head slot with
`get_unchecked`, modelled as a checked lookup (see C10). -/
def front (l : SlabLinkedList T) : Option T :=
  match l.head with
  | none => none
  | some key => (slabGet l.slab key).map Item.value

/-- Last payload: `back()`, symmetric to `front()`. -/
def back (l : SlabLinkedList T) : Option T :=
  match l.tail with
  | none => none
  | some key => (slabGet l.slab key).map Item.value

/-- Insertion immediately before a live target key, following
`insert_before` line by line. The new record is inserted into the slab
first; failure of `get2_mut(key, target_key)` (equal keys or vacant
target) models the `expect("invalid key")` panic, and each later
`assert_eq!` that can fail yields an `error` carrying the state at the
panic. -/
def insertBefore (l : SlabLinkedList T) (value : T) (targetKey : Nat) :
    Except (SlabLinkedList T) (Nat × SlabLinkedList T) :=
  let key := (slabInsert (itemFrom value) l.slab).1
  let slab1 := (slabInsert (itemFrom value) l.slab).2
  if key = targetKey then .error ⟨slab1, l.head, l.tail⟩
  else
    match slabGet slab1 targetKey with
    | none => .error ⟨slab1, l.head, l.tail⟩
    | some targetItem =>
      let slab2 := slabSet slab1 key
        (some { value := value, key := some key, prev := none, next := some targetKey })
      let slab3 := slabSet slab2 targetKey (some { targetItem with prev := some key })
      match targetItem.prev with
      | none =>
        if l.head = some targetKey then .ok (key, ⟨slab3, some key, l.tail⟩)
        else .error ⟨slab3, some key, l.tail⟩
      | some prev =>
        match slabGet slab3 prev with
        | none => .error ⟨slab3, l.head, l.tail⟩
        | some prevItem =>
          let slab4 := slabSet slab3 prev (some { prevItem with next := some key })
          if prevItem.next = some targetKey then .ok (key, ⟨slab4, l.head, l.tail⟩)
          else .error ⟨slab4, l.head, l.tail⟩

/-- Insertion immediately after a live target key, following
`insert_after`, symmetric to `insertBefore`. -/
def insertAfter (l : SlabLinkedList T) (value : T) (targetKey : Nat) :
    Except (SlabLinkedList T) (Nat × SlabLinkedList T) :=
  let key := (slabInsert (itemFrom value) l.slab).1
  let slab1 := (slabInsert (itemFrom value) l.slab).2
  if key = targetKey then .error ⟨slab1, l.head, l.tail⟩
  else
    match slabGet slab1 targetKey with
    | none => .error ⟨slab1, l.head, l.tail⟩
    | some targetItem =>
      let slab2 := slabSet slab1 key
        (some { value := value, key := some key, prev := some targetKey, next := none })
      let slab3 := slabSet slab2 targetKey (some { targetItem with next := some key })
      match targetItem.next with
      | none =>
        if l.tail = some targetKey then .ok (key, ⟨slab3, l.head, some key⟩)
        else .error ⟨slab3, l.head, some key⟩
      | some nxt =>
        match slabGet slab3 nxt with
        | none => .error ⟨slab3, l.head, l.tail⟩
        | some nextItem =>
          let slab4 := slabSet slab3 nxt (some { nextItem with prev := some key })
          if nextItem.prev = some targetKey then .ok (key, ⟨slab4, l.head, l.tail⟩)
          else .error ⟨slab4, l.head, l.tail⟩

/-- Insertion into the empty list, following `insert_first_item`
(including its `assert!` and `assert_eq!` checks and the final
`get_mut(key).unwrap()`). -/
def insertFirstItem (l : SlabLinkedList T) (value : T) :
    Except (SlabLinkedList T) (Nat × SlabLinkedList T) :=
  if slabLen l.slab ≠ 0 then .error l
  else
    let key := (slabInsert (itemFrom value) l.slab).1
    let slab1 := (slabInsert (itemFrom value) l.slab).2
    if l.head ≠ none then .error ⟨slab1, some key, l.tail⟩
    else if l.tail ≠ none then .error ⟨slab1, some key, some key⟩
    else
      match slabGet slab1 key with
      | none => .error ⟨slab1, some key, some key⟩
      | some item =>
        .ok (key, ⟨slabSet slab1 key (some { item with key := some key }), some key, some key⟩)

/-- Push at the front: `push_front` dispatches on `head`. -/
def pushFront (l : SlabLinkedList T) (value : T) :
    Except (SlabLinkedList T) (Nat × SlabLinkedList T) :=
  match l.head with
  | none => insertFirstItem l value
  | some targetKey => insertBefore l value targetKey

/-- Push at the back: `push_back` dispatches on `tail`. -/
def pushBack (l : SlabLinkedList T) (value : T) :
    Except (SlabLinkedList T) (Nat × SlabLinkedList T) :=
  match l.tail with
  | none => insertFirstItem l value
  | some targetKey => insertAfter l value targetKey

/-- Removal by key, following `try_remove` case by case. An absent key
returns `ok (none, l)` with the structure untouched; each internal
`assert_eq!` or `unwrap` that can fail yields an `error` carrying the
state at the panic. -/
def tryRemove (l : SlabLinkedList T) (key : Nat) :
    Except (SlabLinkedList T) (Option T × SlabLinkedList T) :=
  match slabGet l.slab key with
  | none => .ok (none, l)
  | some item =>
    let slab1 := slabSet l.slab key none
    if item.key ≠ some key then .error ⟨slab1, l.head, l.tail⟩
    else
      match item.prev, item.next with
      | some prev, some nxt =>
        if prev = nxt then .error ⟨slab1, l.head, l.tail⟩
        else
          match slabGet slab1 prev, slabGet slab1 nxt with
          | some prevItem, some nextItem =>
            let slab2 := slabSet slab1 prev (some { prevItem with next := some nxt })
            if prevItem.next ≠ some key then .error ⟨slab2, l.head, l.tail⟩
            else
              let slab3 := slabSet slab2 nxt (some { nextItem with prev := some prev })
              if nextItem.prev ≠ some key then .error ⟨slab3, l.head, l.tail⟩
              else .ok (some item.value, ⟨slab3, l.head, l.tail⟩)
          | _, _ => .error ⟨slab1, l.head, l.tail⟩
      | some prev, none =>
        match slabGet slab1 prev with
        | none => .error ⟨slab1, l.head, l.tail⟩
        | some prevItem =>
          let slab2 := slabSet slab1 prev (some { prevItem with next := none })
          if prevItem.next ≠ some key then .error ⟨slab2, l.head, l.tail⟩
          else if l.tail ≠ some key then .error ⟨slab2, l.head, some prev⟩
          else .ok (some item.value, ⟨slab2, l.head, some prev⟩)
      | none, some nxt =>
        match slabGet slab1 nxt with
        | none => .error ⟨slab1, l.head, l.tail⟩
        | some nextItem =>
          let slab2 := slabSet slab1 nxt (some { nextItem with prev := none })
          if nextItem.prev ≠ some key then .error ⟨slab2, l.head, l.tail⟩
          else if l.head ≠ some key then .error ⟨slab2, some nxt, l.tail⟩
          else .ok (some item.value, ⟨slab2, some nxt, l.tail⟩)
      | none, none =>
        if l.head ≠ some key then .error ⟨slab1, none, l.tail⟩
        else if l.tail ≠ some key then .error ⟨slab1, none, none⟩
        else .ok (some item.value, ⟨slab1, none, none⟩)

/-- Removal that treats an absent key as a hard failure: `remove` is
`try_remove(key).expect("invalid key")`. -/
def remove (l : SlabLinkedList T) (key : Nat) :
    Except (SlabLinkedList T) (T × SlabLinkedList T) :=
  match tryRemove l key with
  | .error e => .error e
  | .ok (none, l1) => .error l1
  | .ok (some v, l1) => .ok (v, l1)

/-- Pop at the front: `pop_front` removes at `head` when present. -/
def popFront (l : SlabLinkedList T) :
    Except (SlabLinkedList T) (Option T × SlabLinkedList T) :=
  match l.head with
  | none => .ok (none, l)
  | some key =>
    match remove l key with
    | .error e => .error e
    | .ok (v, l1) => .ok (some v, l1)

/-- Pop at the back: `pop_back` removes at `tail` when present. -/
def popBack (l : SlabLinkedList T) :
    Except (SlabLinkedList T) (Option T × SlabLinkedList T) :=
  match l.tail with
  | none => .ok (none, l)
  | some key =>
    match remove l key with
    | .error e => .error e
    | .ok (v, l1) => .ok (some v, l1)

end SlabLinkedList

open SlabLinkedList

/-- Repeated push_front of a list of values. -/
def pushFrontAll : SlabLinkedList T → List T → Except (SlabLinkedList T) (SlabLinkedList T)
  | l, [] => .ok l
  | l, v :: vs =>
    match pushFront l v with
    | .error e => .error e
    | .ok (_, l1) => pushFrontAll l1 vs

/-- Repeated push_back of a list of values. -/
def pushBackAll : SlabLinkedList T → List T → Except (SlabLinkedList T) (SlabLinkedList T)
  | l, [] => .ok l
  | l, v :: vs =>
    match pushBack l v with
    | .error e => .error e
    | .ok (_, l1) => pushBackAll l1 vs

/-- Repeated pop_front, collecting the values popped; stops early when a
pop finds the list empty. -/
def popFrontN : SlabLinkedList T → Nat → Except (SlabLinkedList T) (List T × SlabLinkedList T)
  | l, 0 => .ok ([], l)
  | l, n + 1 =>
    match popFront l with
    | .error e => .error e
    | .ok (none, l1) => .ok ([], l1)
    | .ok (some v, l1) =>
      match popFrontN l1 n with
      | .error e => .error e
      | .ok (vs, l2) => .ok (v :: vs, l2)

/-- Repeated remove over a list of keys. -/
def removeAll : SlabLinkedList T → List Nat → Except (SlabLinkedList T) (SlabLinkedList T)
  | l, [] => .ok l
  | l, k :: ks =>
    match remove l k with
    | .error e => .error e
    | .ok (_, l1) => removeAll l1 ks

/-- A public mutating operation, for stating properties of call
sequences. -/
inductive Op (T : Type) where
  | pushFront (v : T)
  | pushBack (v : T)
  | insertBefore (v : T) (targetKey : Nat)
  | insertAfter (v : T) (targetKey : Nat)
  | popFront
  | popBack
  | tryRemove (key : Nat)
  | remove (key : Nat)

/-- Run one operation; alongside the new state, report how many
insertions (0 or 1) and successful removals (0 or 1) it performed. -/
def applyOp (l : SlabLinkedList T) : Op T → Except (SlabLinkedList T) (SlabLinkedList T × Nat × Nat)
  | .pushFront v =>
    match pushFront l v with
    | .error e => .error e
    | .ok (_, l1) => .ok (l1, 1, 0)
  | .pushBack v =>
    match pushBack l v with
    | .error e => .error e
    | .ok (_, l1) => .ok (l1, 1, 0)
  | .insertBefore v t =>
    match insertBefore l v t with
    | .error e => .error e
    | .ok (_, l1) => .ok (l1, 1, 0)
  | .insertAfter v t =>
    match insertAfter l v t with
    | .error e => .error e
    | .ok (_, l1) => .ok (l1, 1, 0)
  | .popFront =>
    match popFront l with
    | .error e => .error e
    | .ok (none, l1) => .ok (l1, 0, 0)
    | .ok (some _, l1) => .ok (l1, 0, 1)
  | .popBack =>
    match popBack l with
    | .error e => .error e
    | .ok (none, l1) => .ok (l1, 0, 0)
    | .ok (some _, l1) => .ok (l1, 0, 1)
  | .tryRemove k =>
    match tryRemove l k with
    | .error e => .error e
    | .ok (none, l1) => .ok (l1, 0, 0)
    | .ok (some _, l1) => .ok (l1, 0, 1)
  | .remove k =>
    match remove l k with
    | .error e => .error e
    | .ok (_, l1) => .ok (l1, 0, 1)

/-- Run a sequence of operations from a state, accumulating the counts
of insertions and successful removals. -/
def runOps : SlabLinkedList T → List (Op T) → Except (SlabLinkedList T) (SlabLinkedList T × Nat × Nat)
  | l, [] => .ok (l, 0, 0)
  | l, op :: ops =>
    match applyOp l op with
    | .error e => .error e
    | .ok (l1, i, r) =>
      match runOps l1 ops with
      | .error e => .error e
      | .ok (l2, is, rs) => .ok (l2, i + is, r + rs)

/-- Keys visited by repeatedly following next fields from a start key,
bounded by fuel. -/
def chainKeys (slab : List (Option (Item T))) : Nat → Option Nat → List Nat
  | 0, _ => []
  | _ + 1, none => []
  | fuel + 1, some k => k :: chainKeys slab fuel ((slabGet slab k).bind Item.next)

/-- Values stored along a list of keys. -/
def valsOf (slab : List (Option (Item T))) (ks : List Nat) : List T :=
  ks.filterMap (fun k => (slabGet slab k).map Item.value)

/-- First key of a list, with a fallback boundary. -/
def headOr : List Nat → Option Nat → Option Nat
  | [], n => n
  | k :: _, _ => some k

/-- Last key of a list, with a fallback boundary on the other side. -/
def endKey (p : Option Nat) : List Nat → Option Nat
  | [] => p
  | k :: ks => endKey (some k) ks

/-- The keys `ks` form a consecutive doubly linked run in the store: each
record carries its own key, the first record points back to `p`, the last
record points forward to `n`, and consecutive records point at each
other. -/
def chainSeg (slab : List (Option (Item T))) : Option Nat → List Nat → Option Nat → Prop
  | _, [], _ => True
  | p, k :: ks, n =>
    ∃ item, slabGet slab k = some item ∧ item.key = some k ∧ item.prev = p ∧
      item.next = headOr ks n ∧ chainSeg slab (some k) ks n

/-- A state models the key sequence `ks` when head, tail and the link
fields spell out exactly that sequence and the store holds exactly those
keys. -/
structure Models (l : SlabLinkedList T) (ks : List Nat) : Prop where
  head_eq : l.head = ks.head?
  tail_eq : l.tail = endKey none ks
  chain : chainSeg l.slab none ks none
  nodup : ks.Nodup
  len_eq : slabLen l.slab = ks.length
  mem_iff : ∀ k, (slabGet l.slab k).isSome = true ↔ k ∈ ks

/-- The structural invariants claimed in spec section 3: agreement of the
emptiness of head, tail and store; reciprocal prev and next links;
boundary links of head and tail; and the traversal from head along next
visiting exactly the stored keys with no duplicates. -/
def StructInv (l : SlabLinkedList T) : Prop :=
  (l.head = none ↔ l.tail = none) ∧
  (l.tail = none ↔ slabLen l.slab = 0) ∧
  (∀ k item p, slabGet l.slab k = some item → item.prev = some p →
    ∃ pitem, slabGet l.slab p = some pitem ∧ pitem.next = some k) ∧
  (∀ k item nk, slabGet l.slab k = some item → item.next = some nk →
    ∃ nitem, slabGet l.slab nk = some nitem ∧ nitem.prev = some k) ∧
  (∀ hk, l.head = some hk → ∃ hitem, slabGet l.slab hk = some hitem ∧ hitem.prev = none) ∧
  (∀ tk, l.tail = some tk → ∃ titem, slabGet l.slab tk = some titem ∧ titem.next = none) ∧
  (chainKeys l.slab (slabLen l.slab) l.head).Nodup ∧
  (∀ k, k ∈ chainKeys l.slab (slabLen l.slab) l.head ↔ (slabGet l.slab k).isSome = true)

/-- Emptiness of the store forces both end keys to be cleared. -/
def SmallInv (l : SlabLinkedList T) : Prop :=
  slabLen l.slab = 0 → l.head = none ∧ l.tail = none

/-- The list of keys currently occupied in a store. -/
def keysOf (s : List (Option (Item T))) : List Nat :=
  (List.range s.length).filter (fun k => (slabGet s k).isSome)

/-- State after push_back(1) on the empty list (key 0). -/
def stateB1 : SlabLinkedList Nat :=
  ⟨[some ⟨1, some 0, none, none⟩], some 0, some 0⟩

/-- State after push_back(1), push_back(2) (keys 0, 1). -/
def stateB2 : SlabLinkedList Nat :=
  ⟨[some ⟨1, some 0, none, some 1⟩, some ⟨2, some 1, some 0, none⟩], some 0, some 1⟩

/-- State after push_back(1), push_back(2), insert_before(3, 1): the new
record at key 2 sits between keys 0 and 1 in the next chain, but its prev
field was never written and is still none. -/
def stateB3 : SlabLinkedList Nat :=
  ⟨[some ⟨1, some 0, none, some 2⟩, some ⟨2, some 1, some 2, none⟩,
    some ⟨3, some 2, none, some 1⟩], some 0, some 1⟩

/-- State after push_back(1), push_back(2), insert_after(3, 0): the new
record at key 2 sits between keys 0 and 1 in the prev chain, but its next
field was never written and is still none. -/
def stateA3 : SlabLinkedList Nat :=
  ⟨[some ⟨1, some 0, none, some 2⟩, some ⟨2, some 1, some 2, none⟩,
    some ⟨3, some 2, some 0, none⟩], some 0, some 1⟩

/-- State after push_back(1), push_back(2), push_back(3) (keys 0, 1, 2),
a well formed three element list. -/
def stateH3 : SlabLinkedList Nat :=
  ⟨[some ⟨1, some 0, none, some 1⟩, some ⟨2, some 1, some 0, some 2⟩,
    some ⟨3, some 2, some 1, none⟩], some 0, some 2⟩

/-- States reachable from `new()` by the public mutating operations. -/
inductive Reachable : SlabLinkedList T → Prop where
  | new : Reachable SlabLinkedList.new
  | insertBefore {l : SlabLinkedList T} {v : T} {t k : Nat} {l1 : SlabLinkedList T} :
      Reachable l → insertBefore l v t = .ok (k, l1) → Reachable l1
  | insertAfter {l : SlabLinkedList T} {v : T} {t k : Nat} {l1 : SlabLinkedList T} :
      Reachable l → insertAfter l v t = .ok (k, l1) → Reachable l1
  | pushFront {l : SlabLinkedList T} {v : T} {k : Nat} {l1 : SlabLinkedList T} :
      Reachable l → pushFront l v = .ok (k, l1) → Reachable l1
  | pushBack {l : SlabLinkedList T} {v : T} {k : Nat} {l1 : SlabLinkedList T} :
      Reachable l → pushBack l v = .ok (k, l1) → Reachable l1
  | popFront {l : SlabLinkedList T} {r : Option T} {l1 : SlabLinkedList T} :
      Reachable l → popFront l = .ok (r, l1) → Reachable l1
  | popBack {l : SlabLinkedList T} {r : Option T} {l1 : SlabLinkedList T} :
      Reachable l → popBack l = .ok (r, l1) → Reachable l1
  | tryRemove {l : SlabLinkedList T} {k : Nat} {r : Option T} {l1 : SlabLinkedList T} :
      Reachable l → tryRemove l k = .ok (r, l1) → Reachable l1
  | remove {l : SlabLinkedList T} {k : Nat} {v : T} {l1 : SlabLinkedList T} :
      Reachable l → remove l k = .ok (v, l1) → Reachable l1

/-! ### Basic facts about the store model -/

theorem slabGet_slabSet_self {α : Type} {s : List (Option α)} {k : Nat} {a : α}
    (h : slabGet s k = some a) (v : Option α) : slabGet (slabSet s k v) k = v := by
  induction s generalizing k with
  | nil => simp [slabGet] at h
  | cons o rest ih =>
    cases k with
    | zero => simp [slabGet, slabSet]
    | succ k => exact ih h

theorem slabGet_slabSet_ne {α : Type} (s : List (Option α)) (k : Nat) (v : Option α)
    {j : Nat} (h : j ≠ k) : slabGet (slabSet s k v) j = slabGet s j := by
  induction s generalizing k j with
  | nil => simp [slabSet]
  | cons o rest ih =>
    cases k with
    | zero =>
      cases j with
      | zero => exact absurd rfl h
      | succ j => simp [slabGet, slabSet]
    | succ k =>
      cases j with
      | zero => simp [slabGet, slabSet]
      | succ j => exact ih k (fun hj => h (by rw [hj]))

theorem slabInsert_fresh {α : Type} (a : α) (s : List (Option α)) :
    slabGet s (slabInsert a s).1 = none := by
  induction s with
  | nil => simp [slabGet]
  | cons o rest ih =>
    cases o with
    | none => simp [slabInsert, slabGet]
    | some b => simpa [slabInsert, slabGet] using ih

theorem slabGet_slabInsert_self {α : Type} (a : α) (s : List (Option α)) :
    slabGet (slabInsert a s).2 (slabInsert a s).1 = some a := by
  induction s with
  | nil => simp [slabInsert, slabGet]
  | cons o rest ih =>
    cases o with
    | none => simp [slabInsert, slabGet]
    | some b => simpa [slabInsert, slabGet] using ih

theorem slabGet_slabInsert_ne {α : Type} (a : α) (s : List (Option α))
    {j : Nat} (h : j ≠ (slabInsert a s).1) : slabGet (slabInsert a s).2 j = slabGet s j := by
  induction s generalizing j with
  | nil =>
    cases j with
    | zero => exact absurd rfl h
    | succ j => simp [slabInsert, slabGet]
  | cons o rest ih =>
    cases o with
    | none =>
      cases j with
      | zero => simp [slabInsert] at h
      | succ j => simp [slabInsert, slabGet]
    | some b =>
      cases j with
      | zero => simp [slabInsert, slabGet]
      | succ j =>
        simp only [slabInsert, slabGet]
        exact ih (fun hj => h (by simp [slabInsert, hj]))

theorem slabLen_slabInsert {α : Type} (a : α) (s : List (Option α)) :
    slabLen (slabInsert a s).2 = slabLen s + 1 := by
  induction s with
  | nil => simp [slabInsert, slabLen]
  | cons o rest ih =>
    cases o with
    | none => simp [slabInsert, slabLen]
    | some b => simpa [slabInsert, slabLen] using ih

theorem slabLen_slabSet_some {α : Type} {s : List (Option α)} {k : Nat} {a : α}
    (h : slabGet s k = some a) (b : α) : slabLen (slabSet s k (some b)) = slabLen s := by
  induction s generalizing k with
  | nil => simp [slabGet] at h
  | cons o rest ih =>
    cases k with
    | zero =>
      simp only [slabGet] at h
      subst h
      simp [slabSet, slabLen]
    | succ k =>
      cases o with
      | none => simpa [slabSet, slabLen] using ih h
      | some c => simpa [slabSet, slabLen] using ih h

theorem slabLen_slabSet_none {α : Type} {s : List (Option α)} {k : Nat} {a : α}
    (h : slabGet s k = some a) : slabLen s = slabLen (slabSet s k none) + 1 := by
  induction s generalizing k with
  | nil => simp [slabGet] at h
  | cons o rest ih =>
    cases k with
    | zero =>
      simp only [slabGet] at h
      subst h
      simp [slabSet, slabLen]
    | succ k =>
      cases o with
      | none => simpa [slabSet, slabLen] using ih h
      | some c => simpa [slabSet, slabLen, Nat.add_comm] using ih h

theorem slabLen_zero_iff {α : Type} (s : List (Option α)) :
    slabLen s = 0 ↔ ∀ k, slabGet s k = none := by
  induction s with
  | nil => simp [slabLen, slabGet]
  | cons o rest ih =>
    cases o with
    | none =>
      simp only [slabLen, ih]
      constructor
      · intro h k
        cases k with
        | zero => rfl
        | succ k => exact h k
      · intro h k
        exact h (k + 1)
    | some b =>
      simp only [slabLen]
      constructor
      · intro h
        exact absurd h (Nat.succ_ne_zero _)
      · intro h
        have := h 0
        simp [slabGet] at this

/-! ### Chain segments: the doubly linked structure of a key run -/

theorem headOr_append (as bs : List Nat) (n : Option Nat) :
    headOr (as ++ bs) n = headOr as (headOr bs n) := by
  cases as <;> rfl

theorem endKey_append (p : Option Nat) (as bs : List Nat) :
    endKey p (as ++ bs) = endKey (endKey p as) bs := by
  induction as generalizing p with
  | nil => rfl
  | cons a as ih => simpa [endKey] using ih (some a)

theorem endKey_concat (p : Option Nat) (as : List Nat) (x : Nat) :
    endKey p (as ++ [x]) = some x := by
  rw [endKey_append]
  rfl

theorem endKey_some (x : Nat) (as : List Nat) : ∃ y, endKey (some x) as = some y := by
  induction as generalizing x with
  | nil => exact ⟨x, rfl⟩
  | cons a as ih => exact ih a

theorem endKey_none_iff (as : List Nat) : endKey none as = none ↔ as = [] := by
  cases as with
  | nil => simp [endKey]
  | cons a as =>
    simp only [endKey]
    obtain ⟨y, hy⟩ := endKey_some a as
    simp [hy]

theorem endKey_mem {p : Option Nat} {as : List Nat} {k : Nat}
    (h : endKey p as = some k) : k ∈ as ∨ p = some k := by
  induction as generalizing p with
  | nil => exact Or.inr h
  | cons a as ih =>
    rcases ih h with h1 | h1
    · exact Or.inl (List.mem_cons_of_mem _ h1)
    · rcases Option.some.inj h1 with rfl
      exact Or.inl (List.mem_cons_self _ _)

theorem chainSeg_frame {slab1 slab2 : List (Option (Item T))} {p n : Option Nat}
    {ks : List Nat} (hf : ∀ k ∈ ks, slabGet slab2 k = slabGet slab1 k)
    (h : chainSeg slab1 p ks n) : chainSeg slab2 p ks n := by
  induction ks generalizing p with
  | nil => trivial
  | cons k ks ih =>
    obtain ⟨item, hget, hkey, hprev, hnext, hrest⟩ := h
    exact ⟨item, (hf k (List.mem_cons_self _ _)).trans hget, hkey, hprev, hnext,
      ih (fun j hj => hf j (List.mem_cons_of_mem _ hj)) hrest⟩

theorem chainSeg_append {slab : List (Option (Item T))} {p n : Option Nat}
    (as bs : List Nat) :
    chainSeg slab p (as ++ bs) n ↔
      chainSeg slab p as (headOr bs n) ∧ chainSeg slab (endKey p as) bs n := by
  induction as generalizing p with
  | nil => simp [chainSeg, endKey]
  | cons a as ih =>
    constructor
    · rintro ⟨item, h1, h2, h3, h4, h5⟩
      simp only [List.append_eq] at h4 h5
      rw [ih] at h5
      refine ⟨⟨item, h1, h2, h3, ?_, h5.1⟩, h5.2⟩
      rw [h4]
      exact headOr_append as bs n
    · rintro ⟨⟨item, h1, h2, h3, h4, h5⟩, h6⟩
      refine ⟨item, h1, h2, h3, ?_, ?_⟩
      · simp only [List.append_eq]
        rw [h4, headOr_append]
      · simp only [List.append_eq]
        rw [ih]
        exact ⟨h5, h6⟩

theorem chainSeg_mem_get {slab : List (Option (Item T))} {p n : Option Nat}
    {ks : List Nat} {k : Nat} (h : chainSeg slab p ks n) (hk : k ∈ ks) :
    ∃ item, slabGet slab k = some item ∧ item.key = some k := by
  induction ks generalizing p with
  | nil => cases hk
  | cons a ks ih =>
    obtain ⟨item, h1, h2, _, _, h5⟩ := h
    rcases List.mem_cons.mp hk with rfl | hk
    · exact ⟨item, h1, h2⟩
    · exact ih h5 hk

theorem head?_append_left {α : Type} {xs : List α} (ys : List α) (h : xs ≠ []) :
    (xs ++ ys).head? = xs.head? := by
  cases xs with
  | nil => exact absurd rfl h
  | cons a xs => rfl

/-! ### The representation predicate tying a list state to its key sequence -/

theorem Models.not_mem_of_vacant {l : SlabLinkedList T} {ks : List Nat} {k : Nat}
    (hm : Models l ks) (h : slabGet l.slab k = none) : k ∉ ks := by
  intro hk
  have := (hm.mem_iff k).mpr hk
  rw [h] at this
  simp at this

theorem models_new : Models (SlabLinkedList.new : SlabLinkedList T) [] := by
  refine ⟨rfl, rfl, trivial, List.nodup_nil, rfl, ?_⟩
  intro k
  simp [SlabLinkedList.new, slabGet]

/-! ### Failure of the by-key operations on an absent key -/

theorem tryRemove_miss {l : SlabLinkedList T} {k : Nat}
    (h : slabGet l.slab k = none) : tryRemove l k = .ok (none, l) := by
  simp only [tryRemove, h]

theorem remove_miss {l : SlabLinkedList T} {k : Nat}
    (h : slabGet l.slab k = none) : remove l k = .error l := by
  simp only [remove, tryRemove_miss h]

theorem insertBefore_miss {l : SlabLinkedList T} {v : T} {t : Nat}
    (h : slabGet l.slab t = none) :
    insertBefore l v t = .error ⟨(slabInsert (itemFrom v) l.slab).2, l.head, l.tail⟩ := by
  simp only [insertBefore]
  by_cases hkt : (slabInsert (itemFrom v) l.slab).1 = t
  · rw [if_pos hkt]
  · rw [if_neg hkt, slabGet_slabInsert_ne _ _ (fun he => hkt he.symm), h]

theorem insertAfter_miss {l : SlabLinkedList T} {v : T} {t : Nat}
    (h : slabGet l.slab t = none) :
    insertAfter l v t = .error ⟨(slabInsert (itemFrom v) l.slab).2, l.head, l.tail⟩ := by
  simp only [insertAfter]
  by_cases hkt : (slabInsert (itemFrom v) l.slab).1 = t
  · rw [if_pos hkt]
  · rw [if_neg hkt, slabGet_slabInsert_ne _ _ (fun he => hkt he.symm), h]

/-! ### Insertion into the empty list -/

theorem insertFirstItem_ok {l : SlabLinkedList T} (v : T) (hm : Models l []) :
    ∃ k l1, insertFirstItem l v = .ok (k, l1) ∧
      slabGet l.slab k = none ∧
      Models l1 [k] ∧
      slabGet l1.slab k = some ⟨v, some k, none, none⟩ ∧
      (∀ j, j ≠ k → (slabGet l1.slab j).map Item.value = (slabGet l.slab j).map Item.value) := by
  obtain ⟨hhead, htail, hchain, hnodup, hlen, hmem⟩ := hm
  have heq : insertFirstItem l v = .ok ((slabInsert (itemFrom v) l.slab).1,
      ⟨slabSet (slabInsert (itemFrom v) l.slab).2 (slabInsert (itemFrom v) l.slab).1
        (some ⟨v, some (slabInsert (itemFrom v) l.slab).1, none, none⟩),
        some (slabInsert (itemFrom v) l.slab).1, some (slabInsert (itemFrom v) l.slab).1⟩) := by
    simp only [insertFirstItem]
    rw [if_neg (by simp [hlen]), if_neg (by simp [hhead]), if_neg (by simp [htail, endKey]),
      slabGet_slabInsert_self]
    simp [itemFrom]
  refine ⟨_, _, heq, slabInsert_fresh _ _, ?_, ?_, ?_⟩
  · refine ⟨rfl, rfl, ?_, List.nodup_singleton _, ?_, ?_⟩
    · exact ⟨⟨v, some _, none, none⟩,
        slabGet_slabSet_self (slabGet_slabInsert_self _ _) _, rfl, rfl, rfl, trivial⟩
    · rw [slabLen_slabSet_some (slabGet_slabInsert_self _ _), slabLen_slabInsert, hlen]
      rfl
    · intro j
      by_cases hj : j = (slabInsert (itemFrom v) l.slab).1
      · subst hj
        rw [slabGet_slabSet_self (slabGet_slabInsert_self _ _)]
        simp
      · rw [slabGet_slabSet_ne _ _ _ hj, slabGet_slabInsert_ne _ _ hj]
        simp [hmem j, hj]
  · exact slabGet_slabSet_self (slabGet_slabInsert_self _ _) _
  · intro j hj
    rw [slabGet_slabSet_ne _ _ _ hj, slabGet_slabInsert_ne _ _ hj]

/-! ### Insertion before the head key (the branch taken by push_front) -/

theorem insertBefore_head_ok {l : SlabLinkedList T} (v : T) {t : Nat} {bs : List Nat}
    (hm : Models l (t :: bs)) :
    ∃ k l1, insertBefore l v t = .ok (k, l1) ∧
      slabGet l.slab k = none ∧
      Models l1 (k :: t :: bs) ∧
      slabGet l1.slab k = some ⟨v, some k, none, some t⟩ ∧
      (∀ j, j ≠ k → (slabGet l1.slab j).map Item.value = (slabGet l.slab j).map Item.value) := by
  obtain ⟨hhead, htail, hchain, hnodup, hlen, hmem⟩ := hm
  obtain ⟨titem, hgett, htkey, htprev, htnext, hbs⟩ := hchain
  have hfresh : slabGet l.slab (slabInsert (itemFrom v) l.slab).1 = none := slabInsert_fresh _ _
  have hkmem : (slabInsert (itemFrom v) l.slab).1 ∉ t :: bs := by
    intro hin
    have := (hmem _).mpr hin
    rw [hfresh] at this
    simp at this
  have hkt : (slabInsert (itemFrom v) l.slab).1 ≠ t := by
    intro h
    exact hkmem (by rw [h]; exact List.mem_cons_self _ _)
  have htnin : t ∉ bs := (List.nodup_cons.mp hnodup).1
  have hget1t : slabGet (slabInsert (itemFrom v) l.slab).2 t = some titem := by
    rw [slabGet_slabInsert_ne _ _ (fun h => hkt h.symm)]
    exact hgett
  have heq : insertBefore l v t = .ok ((slabInsert (itemFrom v) l.slab).1,
      ⟨slabSet (slabSet (slabInsert (itemFrom v) l.slab).2 (slabInsert (itemFrom v) l.slab).1
          (some ⟨v, some (slabInsert (itemFrom v) l.slab).1, none, some t⟩)) t
          (some { titem with prev := some (slabInsert (itemFrom v) l.slab).1 }),
        some (slabInsert (itemFrom v) l.slab).1, l.tail⟩) := by
    simp only [insertBefore]
    rw [if_neg hkt]
    simp only [hget1t, htprev]
    rw [if_pos (show l.head = some t from hhead)]
  have hg_k : slabGet (slabSet (slabSet (slabInsert (itemFrom v) l.slab).2
      (slabInsert (itemFrom v) l.slab).1
      (some ⟨v, some (slabInsert (itemFrom v) l.slab).1, none, some t⟩)) t
      (some { titem with prev := some (slabInsert (itemFrom v) l.slab).1 }))
      (slabInsert (itemFrom v) l.slab).1 =
      some ⟨v, some (slabInsert (itemFrom v) l.slab).1, none, some t⟩ := by
    rw [slabGet_slabSet_ne _ _ _ hkt, slabGet_slabSet_self (slabGet_slabInsert_self _ _)]
  have hg_t : slabGet (slabSet (slabSet (slabInsert (itemFrom v) l.slab).2
      (slabInsert (itemFrom v) l.slab).1
      (some ⟨v, some (slabInsert (itemFrom v) l.slab).1, none, some t⟩)) t
      (some { titem with prev := some (slabInsert (itemFrom v) l.slab).1 })) t =
      some { titem with prev := some (slabInsert (itemFrom v) l.slab).1 } := by
    have h2 : slabGet (slabSet (slabInsert (itemFrom v) l.slab).2
        (slabInsert (itemFrom v) l.slab).1
        (some ⟨v, some (slabInsert (itemFrom v) l.slab).1, none, some t⟩)) t = some titem := by
      rw [slabGet_slabSet_ne _ _ _ (fun h => hkt h.symm)]
      exact hget1t
    exact slabGet_slabSet_self h2 _
  have hg_other : ∀ j, j ≠ (slabInsert (itemFrom v) l.slab).1 → j ≠ t →
      slabGet (slabSet (slabSet (slabInsert (itemFrom v) l.slab).2
        (slabInsert (itemFrom v) l.slab).1
        (some ⟨v, some (slabInsert (itemFrom v) l.slab).1, none, some t⟩)) t
        (some { titem with prev := some (slabInsert (itemFrom v) l.slab).1 })) j =
      slabGet l.slab j := by
    intro j hjk hjt
    rw [slabGet_slabSet_ne _ _ _ hjt, slabGet_slabSet_ne _ _ _ hjk,
      slabGet_slabInsert_ne _ _ hjk]
  refine ⟨_, _, heq, hfresh, ?_, hg_k, ?_⟩
  · refine ⟨rfl, htail, ?_, List.nodup_cons.mpr ⟨hkmem, hnodup⟩, ?_, ?_⟩
    · refine ⟨_, hg_k, rfl, rfl, rfl, ?_⟩
      refine ⟨_, hg_t, htkey, rfl, htnext, ?_⟩
      refine chainSeg_frame (fun j hj => ?_) hbs
      refine hg_other j (fun h => hkmem (by rw [← h]; exact List.mem_cons_of_mem _ hj)) ?_
      intro h
      exact htnin (h ▸ hj)
    · rw [slabLen_slabSet_some (show slabGet _ t = some titem by
        rw [slabGet_slabSet_ne _ _ _ (fun h => hkt h.symm)]; exact hget1t),
        slabLen_slabSet_some (slabGet_slabInsert_self _ _), slabLen_slabInsert, hlen]
      rfl
    · intro j
      by_cases hjk : j = (slabInsert (itemFrom v) l.slab).1
      · subst hjk
        rw [hg_k]
        simp
      · by_cases hjt : j = t
        · subst hjt
          rw [hg_t]
          simp
        · rw [hg_other j hjk hjt]
          rw [hmem j]
          simp [hjk, hjt]
  · intro j hjk
    by_cases hjt : j = t
    · subst hjt
      rw [hg_t, hgett]
      rfl
    · rw [hg_other j hjk hjt]

/-! ### Insertion after the tail key (the branch taken by push_back) -/

theorem insertAfter_tail_ok {l : SlabLinkedList T} (v : T) {t : Nat} {as : List Nat}
    (hm : Models l (as ++ [t])) :
    ∃ k l1, insertAfter l v t = .ok (k, l1) ∧
      slabGet l.slab k = none ∧
      Models l1 (as ++ [t, k]) ∧
      slabGet l1.slab k = some ⟨v, some k, some t, none⟩ ∧
      (∀ j, j ≠ k → (slabGet l1.slab j).map Item.value = (slabGet l.slab j).map Item.value) := by
  obtain ⟨hhead, htail, hchain, hnodup, hlen, hmem⟩ := hm
  rw [chainSeg_append] at hchain
  obtain ⟨has, htl⟩ := hchain
  obtain ⟨titem, hgett, htkey, htprev, htnextX, -⟩ := htl
  have htnext : titem.next = none := htnextX
  have hfresh : slabGet l.slab (slabInsert (itemFrom v) l.slab).1 = none := slabInsert_fresh _ _
  have hkmem : (slabInsert (itemFrom v) l.slab).1 ∉ as ++ [t] := by
    intro hin
    have := (hmem _).mpr hin
    rw [hfresh] at this
    simp at this
  have hkt : (slabInsert (itemFrom v) l.slab).1 ≠ t := by
    intro h
    exact hkmem (by rw [h]; simp)
  have hknas : (slabInsert (itemFrom v) l.slab).1 ∉ as := by
    intro h
    exact hkmem (List.mem_append.mpr (Or.inl h))
  have htnas : t ∉ as := by
    intro h
    have := List.nodup_append.mp hnodup
    exact this.2.2 h (by simp)
  have hget1t : slabGet (slabInsert (itemFrom v) l.slab).2 t = some titem := by
    rw [slabGet_slabInsert_ne _ _ (fun h => hkt h.symm)]
    exact hgett
  have heq : insertAfter l v t = .ok ((slabInsert (itemFrom v) l.slab).1,
      ⟨slabSet (slabSet (slabInsert (itemFrom v) l.slab).2 (slabInsert (itemFrom v) l.slab).1
          (some ⟨v, some (slabInsert (itemFrom v) l.slab).1, some t, none⟩)) t
          (some { titem with next := some (slabInsert (itemFrom v) l.slab).1 }),
        l.head, some (slabInsert (itemFrom v) l.slab).1⟩) := by
    simp only [insertAfter]
    rw [if_neg hkt]
    simp only [hget1t, htnext]
    rw [if_pos (show l.tail = some t from by rw [htail, endKey_concat])]
  have hg_k : slabGet (slabSet (slabSet (slabInsert (itemFrom v) l.slab).2
      (slabInsert (itemFrom v) l.slab).1
      (some ⟨v, some (slabInsert (itemFrom v) l.slab).1, some t, none⟩)) t
      (some { titem with next := some (slabInsert (itemFrom v) l.slab).1 }))
      (slabInsert (itemFrom v) l.slab).1 =
      some ⟨v, some (slabInsert (itemFrom v) l.slab).1, some t, none⟩ := by
    rw [slabGet_slabSet_ne _ _ _ hkt, slabGet_slabSet_self (slabGet_slabInsert_self _ _)]
  have hg_t : slabGet (slabSet (slabSet (slabInsert (itemFrom v) l.slab).2
      (slabInsert (itemFrom v) l.slab).1
      (some ⟨v, some (slabInsert (itemFrom v) l.slab).1, some t, none⟩)) t
      (some { titem with next := some (slabInsert (itemFrom v) l.slab).1 })) t =
      some { titem with next := some (slabInsert (itemFrom v) l.slab).1 } := by
    have h2 : slabGet (slabSet (slabInsert (itemFrom v) l.slab).2
        (slabInsert (itemFrom v) l.slab).1
        (some ⟨v, some (slabInsert (itemFrom v) l.slab).1, some t, none⟩)) t = some titem := by
      rw [slabGet_slabSet_ne _ _ _ (fun h => hkt h.symm)]
      exact hget1t
    exact slabGet_slabSet_self h2 _
  have hg_other : ∀ j, j ≠ (slabInsert (itemFrom v) l.slab).1 → j ≠ t →
      slabGet (slabSet (slabSet (slabInsert (itemFrom v) l.slab).2
        (slabInsert (itemFrom v) l.slab).1
        (some ⟨v, some (slabInsert (itemFrom v) l.slab).1, some t, none⟩)) t
        (some { titem with next := some (slabInsert (itemFrom v) l.slab).1 })) j =
      slabGet l.slab j := by
    intro j hjk hjt
    rw [slabGet_slabSet_ne _ _ _ hjt, slabGet_slabSet_ne _ _ _ hjk,
      slabGet_slabInsert_ne _ _ hjk]
  refine ⟨_, _, heq, hfresh, ?_, hg_k, ?_⟩
  · refine ⟨?_, ?_, ?_, ?_, ?_, ?_⟩
    · cases as with
      | nil => exact hhead
      | cons a as2 => exact hhead
    · rw [show as ++ [t, (slabInsert (itemFrom v) l.slab).1] =
        (as ++ [t]) ++ [(slabInsert (itemFrom v) l.slab).1] by simp, endKey_concat]
    · rw [chainSeg_append]
      constructor
      · refine chainSeg_frame (fun j hj => ?_) has
        exact hg_other j (fun h => hknas (h ▸ hj)) (fun h => htnas (h ▸ hj))
      · refine ⟨_, hg_t, htkey, htprev, rfl, ?_⟩
        exact ⟨_, hg_k, rfl, rfl, rfl, trivial⟩
    · have hpieces := List.nodup_append.mp hnodup
      refine List.nodup_append.mpr ⟨hpieces.1, ?_, ?_⟩
      · simp [List.nodup_cons, hkt.symm]
      · intro j hja hjm
        simp only [List.mem_cons, List.mem_singleton, List.not_mem_nil, or_false] at hjm
        rcases hjm with rfl | rfl
        · exact htnas hja
        · exact hknas hja
    · rw [slabLen_slabSet_some (show slabGet _ t = some titem by
        rw [slabGet_slabSet_ne _ _ _ (fun h => hkt h.symm)]; exact hget1t),
        slabLen_slabSet_some (slabGet_slabInsert_self _ _), slabLen_slabInsert, hlen]
      simp
    · intro j
      by_cases hjk : j = (slabInsert (itemFrom v) l.slab).1
      · subst hjk
        rw [hg_k]
        simp
      · by_cases hjt : j = t
        · subst hjt
          rw [hg_t]
          simp
        · rw [hg_other j hjk hjt]
          rw [hmem j]
          simp [hjk, hjt]
  · intro j hjk
    by_cases hjt : j = t
    · subst hjt
      rw [hg_t, hgett]
      rfl
    · rw [hg_other j hjk hjt]

/-! ### Removal at the head key (the operation performed by pop_front) -/

theorem tryRemove_head_ok {l : SlabLinkedList T} {k : Nat} {rest : List Nat}
    (hm : Models l (k :: rest)) :
    ∃ item l1, slabGet l.slab k = some item ∧
      tryRemove l k = .ok (some item.value, l1) ∧
      Models l1 rest ∧
      (∀ j, j ≠ k → (slabGet l1.slab j).map Item.value = (slabGet l.slab j).map Item.value) := by
  obtain ⟨hhead, htail, hchain, hnodup, hlen, hmem⟩ := hm
  obtain ⟨item, hget, hkey, hprev, hnext, hrest⟩ := hchain
  have hheadk : l.head = some k := hhead
  have hknr : k ∉ rest := (List.nodup_cons.mp hnodup).1
  cases rest with
  | nil =>
    have hnext2 : item.next = none := hnext
    have htailk : l.tail = some k := htail
    have heq : tryRemove l k = .ok (some item.value, ⟨slabSet l.slab k none, none, none⟩) := by
      simp only [tryRemove, hget, hprev, hnext2]
      rw [if_neg (by simp [hkey]), if_neg (by simp [hheadk]), if_neg (by simp [htailk])]
    refine ⟨item, _, hget, heq, ?_, ?_⟩
    · refine ⟨rfl, rfl, trivial, List.nodup_nil, ?_, ?_⟩
      · have h1 := slabLen_slabSet_none hget
        have h2 : slabLen l.slab = 1 := hlen
        show slabLen (slabSet l.slab k none) = [].length
        simp only [List.length_nil]
        omega
      · intro j
        by_cases hjk : j = k
        · subst hjk
          rw [slabGet_slabSet_self hget]
          simp
        · rw [slabGet_slabSet_ne _ _ _ hjk, hmem j]
          simp [hjk]
    · intro j hjk
      rw [slabGet_slabSet_ne _ _ _ hjk]
  | cons n rest2 =>
    have hnext2 : item.next = some n := hnext
    obtain ⟨nitem, hgetn, hnkey, hnprev, hnnext, hrest2⟩ := hrest
    have hkn : k ≠ n := by
      intro h
      exact hknr (by rw [h]; exact List.mem_cons_self _ _)
    have hnnr2 : n ∉ rest2 := (List.nodup_cons.mp (List.nodup_cons.mp hnodup).2).1
    have hget1n : slabGet (slabSet l.slab k none) n = some nitem := by
      rw [slabGet_slabSet_ne _ _ _ (fun h => hkn h.symm)]
      exact hgetn
    have heq : tryRemove l k = .ok (some item.value,
        ⟨slabSet (slabSet l.slab k none) n (some { nitem with prev := none }),
          some n, l.tail⟩) := by
      simp only [tryRemove, hget, hprev, hnext2]
      rw [if_neg (by simp [hkey])]
      simp only [hget1n]
      rw [if_neg (by simp [hnprev]), if_neg (by simp [hheadk])]
    have hg_n : slabGet (slabSet (slabSet l.slab k none) n (some { nitem with prev := none })) n =
        some { nitem with prev := none } := slabGet_slabSet_self hget1n _
    have hg_other : ∀ j, j ≠ k → j ≠ n →
        slabGet (slabSet (slabSet l.slab k none) n (some { nitem with prev := none })) j =
          slabGet l.slab j := by
      intro j hjk hjn
      rw [slabGet_slabSet_ne _ _ _ hjn, slabGet_slabSet_ne _ _ _ hjk]
    have hg_k : slabGet (slabSet (slabSet l.slab k none) n (some { nitem with prev := none })) k =
        none := by
      rw [slabGet_slabSet_ne _ _ _ hkn, slabGet_slabSet_self hget]
    refine ⟨item, _, hget, heq, ?_, ?_⟩
    · refine ⟨rfl, htail, ?_, (List.nodup_cons.mp hnodup).2, ?_, ?_⟩
      · refine ⟨_, hg_n, hnkey, rfl, hnnext, ?_⟩
        refine chainSeg_frame (fun j hj => ?_) hrest2
        refine hg_other j (fun h => hknr (h ▸ List.mem_cons_of_mem _ hj)) (fun h => hnnr2 (h ▸ hj))
      · have h1 := slabLen_slabSet_none hget
        have h2 := slabLen_slabSet_some hget1n (Item.mk nitem.value nitem.key none nitem.next)
        have h3 : slabLen l.slab = rest2.length + 2 := by
          rw [hlen]
          rfl
        have h4 : slabLen (slabSet (slabSet l.slab k none) n
            (some { nitem with prev := none })) = slabLen (slabSet l.slab k none) := h2
        show slabLen (slabSet (slabSet l.slab k none) n (some { nitem with prev := none })) =
          (n :: rest2).length
        rw [h4]
        simp only [List.length_cons]
        omega
      · intro j
        by_cases hjk : j = k
        · subst hjk
          rw [hg_k]
          exact iff_of_false (by simp) hknr
        · by_cases hjn : j = n
          · subst hjn
            rw [hg_n]
            simp
          · rw [hg_other j hjk hjn, hmem j]
            simp [hjk, hjn]
    · intro j hjk
      by_cases hjn : j = n
      · subst hjn
        rw [hg_n, hgetn]
        rfl
      · rw [hg_other j hjk hjn]

/-! ### The push and pop wrappers on well formed states -/

theorem pushFront_ok {l : SlabLinkedList T} (v : T) {ks : List Nat} (hm : Models l ks) :
    ∃ k l1, pushFront l v = .ok (k, l1) ∧
      slabGet l.slab k = none ∧
      Models l1 (k :: ks) ∧
      slabGet l1.slab k = some ⟨v, some k, none, ks.head?⟩ ∧
      (∀ j, j ≠ k → (slabGet l1.slab j).map Item.value = (slabGet l.slab j).map Item.value) := by
  cases ks with
  | nil =>
    obtain ⟨k, l1, heq, hfresh, hmod, hrec, hval⟩ := insertFirstItem_ok v hm
    refine ⟨k, l1, ?_, hfresh, hmod, hrec, hval⟩
    simp only [pushFront, show l.head = none from hm.head_eq]
    exact heq
  | cons t bs =>
    obtain ⟨k, l1, heq, hfresh, hmod, hrec, hval⟩ := insertBefore_head_ok v hm
    refine ⟨k, l1, ?_, hfresh, hmod, hrec, hval⟩
    simp only [pushFront, show l.head = some t from hm.head_eq]
    exact heq

theorem pushBack_ok {l : SlabLinkedList T} (v : T) {ks : List Nat} (hm : Models l ks) :
    ∃ k l1, pushBack l v = .ok (k, l1) ∧
      slabGet l.slab k = none ∧
      Models l1 (ks ++ [k]) ∧
      slabGet l1.slab k = some ⟨v, some k, endKey none ks, none⟩ ∧
      (∀ j, j ≠ k → (slabGet l1.slab j).map Item.value = (slabGet l.slab j).map Item.value) := by
  rcases List.eq_nil_or_concat ks with rfl | ⟨as, t, hks⟩
  · obtain ⟨k, l1, heq, hfresh, hmod, hrec, hval⟩ := insertFirstItem_ok v hm
    refine ⟨k, l1, ?_, hfresh, hmod, hrec, hval⟩
    simp only [pushBack, show l.tail = none from hm.tail_eq]
    exact heq
  · rw [List.concat_eq_append] at hks
    subst hks
    obtain ⟨k, l1, heq, hfresh, hmod, hrec, hval⟩ := insertAfter_tail_ok v hm
    refine ⟨k, l1, ?_, hfresh, ?_, ?_, hval⟩
    · simp only [pushBack, show l.tail = some t from by rw [hm.tail_eq, endKey_concat]]
      exact heq
    · rw [List.append_assoc]
      exact hmod
    · rw [endKey_concat]
      exact hrec

theorem popFront_cons {l : SlabLinkedList T} {k : Nat} {rest : List Nat}
    (hm : Models l (k :: rest)) :
    ∃ item l1, slabGet l.slab k = some item ∧
      popFront l = .ok (some item.value, l1) ∧
      Models l1 rest ∧
      (∀ j, j ≠ k → (slabGet l1.slab j).map Item.value = (slabGet l.slab j).map Item.value) := by
  obtain ⟨item, l1, hget, heq, hmod, hval⟩ := tryRemove_head_ok hm
  refine ⟨item, l1, hget, ?_, hmod, hval⟩
  simp only [popFront, show l.head = some k from hm.head_eq, remove, heq]

theorem popFront_nil {l : SlabLinkedList T} (hm : Models l []) : popFront l = .ok (none, l) := by
  simp only [popFront, show l.head = none from hm.head_eq]

theorem popBack_nil {l : SlabLinkedList T} (hm : Models l []) : popBack l = .ok (none, l) := by
  simp only [popBack, show l.tail = none from hm.tail_eq]

/-! ### Values along a key sequence -/

theorem valsOf_congr {s1 s2 : List (Option (Item T))} {ks : List Nat}
    (h : ∀ j ∈ ks, (slabGet s2 j).map Item.value = (slabGet s1 j).map Item.value) :
    valsOf s2 ks = valsOf s1 ks := by
  induction ks with
  | nil => rfl
  | cons k ks ih =>
    have hk := h k (List.mem_cons_self _ _)
    have ih2 := ih (fun j hj => h j (List.mem_cons_of_mem _ hj))
    simp only [valsOf] at ih2 ⊢
    simp only [List.filterMap_cons, hk, ih2]

theorem valsOf_cons_some {s : List (Option (Item T))} {k : Nat} {item : Item T}
    (h : slabGet s k = some item) (ks : List Nat) :
    valsOf s (k :: ks) = item.value :: valsOf s ks := by
  simp [valsOf, h]

theorem valsOf_append (s : List (Option (Item T))) (as bs : List Nat) :
    valsOf s (as ++ bs) = valsOf s as ++ valsOf s bs := by
  simp [valsOf]

theorem valsOf_length {s : List (Option (Item T))} {ks : List Nat}
    (h : ∀ k ∈ ks, (slabGet s k).isSome = true) : (valsOf s ks).length = ks.length := by
  induction ks with
  | nil => rfl
  | cons k ks ih =>
    obtain ⟨item, hit⟩ := Option.isSome_iff_exists.mp (h k (List.mem_cons_self _ _))
    rw [valsOf_cons_some hit]
    simp only [List.length_cons]
    exact congrArg (· + 1) (ih (fun j hj => h j (List.mem_cons_of_mem _ hj)))

/-! ### Push and pop sequences -/

theorem pushFrontAll_ok {l : SlabLinkedList T} {ks : List Nat} (hm : Models l ks)
    (vs : List T) :
    ∃ l1 ks1, pushFrontAll l vs = .ok l1 ∧ Models l1 ks1 ∧
      valsOf l1.slab ks1 = vs.reverse ++ valsOf l.slab ks := by
  induction vs generalizing l ks with
  | nil => exact ⟨l, ks, rfl, hm, by simp⟩
  | cons v vs ih =>
    obtain ⟨k, l1, heq, hfresh, hmod, hrec, hval⟩ := pushFront_ok v hm
    obtain ⟨l2, ks2, heq2, hmod2, hvals2⟩ := ih hmod
    refine ⟨l2, ks2, ?_, hmod2, ?_⟩
    · simp only [pushFrontAll, heq]
      exact heq2
    · rw [hvals2]
      have hstep : valsOf l1.slab (k :: ks) = v :: valsOf l.slab ks := by
        rw [valsOf_cons_some hrec]
        refine congrArg (v :: ·) (valsOf_congr (fun j hj => hval j (fun h => ?_)))
        exact hm.not_mem_of_vacant hfresh (h ▸ hj)
      rw [hstep]
      simp

theorem pushBackAll_ok {l : SlabLinkedList T} {ks : List Nat} (hm : Models l ks)
    (vs : List T) :
    ∃ l1 ks1, pushBackAll l vs = .ok l1 ∧ Models l1 ks1 ∧
      valsOf l1.slab ks1 = valsOf l.slab ks ++ vs := by
  induction vs generalizing l ks with
  | nil => exact ⟨l, ks, rfl, hm, by simp⟩
  | cons v vs ih =>
    obtain ⟨k, l1, heq, hfresh, hmod, hrec, hval⟩ := pushBack_ok v hm
    obtain ⟨l2, ks2, heq2, hmod2, hvals2⟩ := ih hmod
    refine ⟨l2, ks2, ?_, hmod2, ?_⟩
    · simp only [pushBackAll, heq]
      exact heq2
    · rw [hvals2]
      have hstep : valsOf l1.slab (ks ++ [k]) = valsOf l.slab ks ++ [v] := by
        rw [valsOf_append, valsOf_cons_some hrec]
        refine congrArg (· ++ [v]) (valsOf_congr (fun j hj => hval j (fun h => ?_)))
        exact hm.not_mem_of_vacant hfresh (h ▸ hj)
      rw [hstep]
      simp

theorem popFrontN_ok {l : SlabLinkedList T} {ks : List Nat} (hm : Models l ks) :
    ∃ l1, popFrontN l ks.length = .ok (valsOf l.slab ks, l1) ∧ Models l1 [] := by
  induction ks generalizing l with
  | nil => exact ⟨l, rfl, hm⟩
  | cons k rest ih =>
    obtain ⟨item, l1, hget, heq, hmod, hval⟩ := popFront_cons hm
    obtain ⟨l2, heq2, hmod2⟩ := ih hmod
    have hv : valsOf l1.slab rest = valsOf l.slab rest :=
      valsOf_congr (fun j hj => hval j (fun h => (List.nodup_cons.mp hm.nodup).1 (h ▸ hj)))
    refine ⟨l2, ?_, hmod2⟩
    show popFrontN l (rest.length + 1) = .ok (valsOf l.slab (k :: rest), l2)
    rw [valsOf_cons_some hget, ← hv]
    simp only [popFrontN, heq, heq2]

/-! ### Unconditional facts about successful operations on arbitrary states -/

theorem occupied_ne_zero {s : List (Option (Item T))} {j : Nat} {item : Item T}
    (h : slabGet s j = some item) : slabLen s ≠ 0 := by
  intro h0
  have := (slabLen_zero_iff s).mp h0 j
  rw [h] at this
  cases this

theorem tryRemove_ok_cases {l : SlabLinkedList T} {k : Nat} {r : Option T}
    {l1 : SlabLinkedList T} (h : tryRemove l k = .ok (r, l1)) :
    (r = none ∧ l1 = l ∧ slabGet l.slab k = none) ∨
    (∃ item, r = some item.value ∧ slabGet l.slab k = some item ∧
      slabLen l.slab = slabLen l1.slab + 1 ∧
      (∀ j, (slabGet l1.slab j).isSome = true ↔
        ((slabGet l.slab j).isSome = true ∧ j ≠ k)) ∧
      SmallInv l1) := by
  simp only [tryRemove] at h
  split at h
  · -- absent key
    rename_i hget
    refine Or.inl ⟨?_, ?_, hget⟩
    · exact (Prod.mk.injEq _ _ _ _ ▸ (Except.ok.injEq _ _ ▸ h)).1.symm
    · exact (Prod.mk.injEq _ _ _ _ ▸ (Except.ok.injEq _ _ ▸ h)).2.symm
  · rename_i item hget
    split at h
    · exact absurd h (by simp)
    · rename_i hkey
      split at h
      · -- interior: both neighbors present
        rename_i prev nxt hprev hnext
        split at h
        · exact absurd h (by simp)
        · rename_i hpn
          split at h
          · rename_i prevItem nextItem hgp hgn
            split at h
            · exact absurd h (by simp)
            · rename_i hpassert
              split at h
              · exact absurd h (by simp)
              · rename_i hnassert
                have hrl : r = some item.value ∧
                    (⟨slabSet (slabSet (slabSet l.slab k none) prev
                        (some { prevItem with next := some nxt })) nxt
                        (some { nextItem with prev := some prev }),
                      l.head, l.tail⟩ : SlabLinkedList T) = l1 := by
                  have h2 := h
                  rw [Except.ok.injEq, Prod.mk.injEq] at h2
                  exact ⟨h2.1.symm, h2.2⟩
                obtain ⟨hr, hl1⟩ := hrl
                subst hl1
                have hpk : prev ≠ k := by
                  intro he
                  rw [he, slabGet_slabSet_self hget] at hgp
                  cases hgp
                have hnk : nxt ≠ k := by
                  intro he
                  rw [he, slabGet_slabSet_self hget] at hgn
                  cases hgn
                have hgp0 : slabGet l.slab prev = some prevItem := by
                  rw [← slabGet_slabSet_ne l.slab k none hpk]
                  exact hgp
                have hgn0 : slabGet l.slab nxt = some nextItem := by
                  rw [← slabGet_slabSet_ne l.slab k none hnk]
                  exact hgn
                have hg2n : slabGet (slabSet (slabSet l.slab k none) prev
                    (some { prevItem with next := some nxt })) nxt = some nextItem := by
                  rw [slabGet_slabSet_ne _ _ _ (fun he => hpn he.symm)]
                  exact hgn
                refine Or.inr ⟨item, hr, hget, ?_, ?_, ?_⟩
                · rw [slabLen_slabSet_some hg2n, slabLen_slabSet_some hgp,
                    ← slabLen_slabSet_none hget]
                · intro j
                  by_cases hjn : j = nxt
                  · subst hjn
                    rw [slabGet_slabSet_self hg2n, hgn0]
                    simp [hnk]
                  · rw [slabGet_slabSet_ne _ _ _ hjn]
                    by_cases hjp : j = prev
                    · subst hjp
                      rw [slabGet_slabSet_self hgp, hgp0]
                      simp [hpk]
                    · rw [slabGet_slabSet_ne _ _ _ hjp]
                      by_cases hjk : j = k
                      · subst hjk
                        rw [slabGet_slabSet_self hget]
                        simp
                      · rw [slabGet_slabSet_ne _ _ _ hjk]
                        simp [hjk]
                · intro h0
                  exact absurd h0 (occupied_ne_zero (slabGet_slabSet_self hg2n _))
          · exact absurd h (by simp)
      · -- tail element
        rename_i prev hprev hnext
        split at h
        · exact absurd h (by simp)
        · rename_i prevItem hgp
          split at h
          · exact absurd h (by simp)
          · rename_i hpassert
            split at h
            · exact absurd h (by simp)
            · rename_i htassert
              have hrl : r = some item.value ∧
                  (⟨slabSet (slabSet l.slab k none) prev (some { prevItem with next := none }),
                    l.head, some prev⟩ : SlabLinkedList T) = l1 := by
                have h2 := h
                rw [Except.ok.injEq, Prod.mk.injEq] at h2
                exact ⟨h2.1.symm, h2.2⟩
              obtain ⟨hr, hl1⟩ := hrl
              subst hl1
              have hpk : prev ≠ k := by
                intro he
                rw [he, slabGet_slabSet_self hget] at hgp
                cases hgp
              have hgp0 : slabGet l.slab prev = some prevItem := by
                rw [← slabGet_slabSet_ne l.slab k none hpk]
                exact hgp
              refine Or.inr ⟨item, hr, hget, ?_, ?_, ?_⟩
              · rw [slabLen_slabSet_some hgp, ← slabLen_slabSet_none hget]
              · intro j
                by_cases hjp : j = prev
                · subst hjp
                  rw [slabGet_slabSet_self hgp, hgp0]
                  simp [hpk]
                · rw [slabGet_slabSet_ne _ _ _ hjp]
                  by_cases hjk : j = k
                  · subst hjk
                    rw [slabGet_slabSet_self hget]
                    simp
                  · rw [slabGet_slabSet_ne _ _ _ hjk]
                    simp [hjk]
              · intro h0
                exact absurd h0 (occupied_ne_zero (slabGet_slabSet_self hgp _))
      · -- head element
        rename_i nxt hprev hnext
        split at h
        · exact absurd h (by simp)
        · rename_i nextItem hgn
          split at h
          · exact absurd h (by simp)
          · rename_i hnassert
            split at h
            · exact absurd h (by simp)
            · rename_i hhassert
              have hrl : r = some item.value ∧
                  (⟨slabSet (slabSet l.slab k none) nxt (some { nextItem with prev := none }),
                    some nxt, l.tail⟩ : SlabLinkedList T) = l1 := by
                have h2 := h
                rw [Except.ok.injEq, Prod.mk.injEq] at h2
                exact ⟨h2.1.symm, h2.2⟩
              obtain ⟨hr, hl1⟩ := hrl
              subst hl1
              have hnk : nxt ≠ k := by
                intro he
                rw [he, slabGet_slabSet_self hget] at hgn
                cases hgn
              have hgn0 : slabGet l.slab nxt = some nextItem := by
                rw [← slabGet_slabSet_ne l.slab k none hnk]
                exact hgn
              refine Or.inr ⟨item, hr, hget, ?_, ?_, ?_⟩
              · rw [slabLen_slabSet_some hgn, ← slabLen_slabSet_none hget]
              · intro j
                by_cases hjn : j = nxt
                · subst hjn
                  rw [slabGet_slabSet_self hgn, hgn0]
                  simp [hnk]
                · rw [slabGet_slabSet_ne _ _ _ hjn]
                  by_cases hjk : j = k
                  · subst hjk
                    rw [slabGet_slabSet_self hget]
                    simp
                  · rw [slabGet_slabSet_ne _ _ _ hjk]
                    simp [hjk]
              · intro h0
                exact absurd h0 (occupied_ne_zero (slabGet_slabSet_self hgn _))
      · -- sole element
        rename_i hprev hnext
        split at h
        · exact absurd h (by simp)
        · rename_i hhassert
          split at h
          · exact absurd h (by simp)
          · rename_i htassert
            have hrl : r = some item.value ∧
                (⟨slabSet l.slab k none, none, none⟩ : SlabLinkedList T) = l1 := by
              have h2 := h
              rw [Except.ok.injEq, Prod.mk.injEq] at h2
              exact ⟨h2.1.symm, h2.2⟩
            obtain ⟨hr, hl1⟩ := hrl
            subst hl1
            refine Or.inr ⟨item, hr, hget, ?_, ?_, ?_⟩
            · rw [← slabLen_slabSet_none hget]
            · intro j
              by_cases hjk : j = k
              · subst hjk
                rw [slabGet_slabSet_self hget]
                simp
              · rw [slabGet_slabSet_ne _ _ _ hjk]
                simp [hjk]
            · intro h0
              exact ⟨rfl, rfl⟩

theorem insertBefore_ok_len {l : SlabLinkedList T} {v : T} {t k : Nat}
    {l1 : SlabLinkedList T} (h : insertBefore l v t = .ok (k, l1)) :
    slabLen l1.slab = slabLen l.slab + 1 ∧ SmallInv l1 := by
  simp only [insertBefore] at h
  split at h
  · exact absurd h (by simp)
  · rename_i hkt
    split at h
    · exact absurd h (by simp)
    · rename_i targetItem hget1t
      have hlen1 : slabLen (slabSet (slabSet (slabInsert (itemFrom v) l.slab).2
          (slabInsert (itemFrom v) l.slab).1
          (some ⟨v, some (slabInsert (itemFrom v) l.slab).1, none, some t⟩)) t
          (some { targetItem with prev := some (slabInsert (itemFrom v) l.slab).1 })) =
          slabLen l.slab + 1 := by
        have hg2t : slabGet (slabSet (slabInsert (itemFrom v) l.slab).2
            (slabInsert (itemFrom v) l.slab).1
            (some ⟨v, some (slabInsert (itemFrom v) l.slab).1, none, some t⟩)) t =
            some targetItem := by
          rw [slabGet_slabSet_ne _ _ _ (fun he => hkt he.symm)]
          exact hget1t
        rw [slabLen_slabSet_some hg2t, slabLen_slabSet_some (slabGet_slabInsert_self _ _),
          slabLen_slabInsert]
      split at h
      · split at h
        · rw [Except.ok.injEq, Prod.mk.injEq] at h
          obtain ⟨-, hl1⟩ := h
          subst hl1
          exact ⟨hlen1, fun h0 => absurd (hlen1 ▸ h0) (Nat.succ_ne_zero _)⟩
        · exact absurd h (by simp)
      · rename_i prev hprev
        split at h
        · exact absurd h (by simp)
        · rename_i prevItem hgetp
          split at h
          · rw [Except.ok.injEq, Prod.mk.injEq] at h
            obtain ⟨-, hl1⟩ := h
            subst hl1
            have hlen2 : slabLen (slabSet (slabSet (slabSet (slabInsert (itemFrom v) l.slab).2
                (slabInsert (itemFrom v) l.slab).1
                (some ⟨v, some (slabInsert (itemFrom v) l.slab).1, none, some t⟩)) t
                (some { targetItem with prev := some (slabInsert (itemFrom v) l.slab).1 })) prev
                (some { prevItem with next := some (slabInsert (itemFrom v) l.slab).1 })) =
                slabLen l.slab + 1 := by
              rw [slabLen_slabSet_some hgetp, hlen1]
            exact ⟨hlen2, fun h0 => absurd (hlen2 ▸ h0) (Nat.succ_ne_zero _)⟩
          · exact absurd h (by simp)

theorem insertAfter_ok_len {l : SlabLinkedList T} {v : T} {t k : Nat}
    {l1 : SlabLinkedList T} (h : insertAfter l v t = .ok (k, l1)) :
    slabLen l1.slab = slabLen l.slab + 1 ∧ SmallInv l1 := by
  simp only [insertAfter] at h
  split at h
  · exact absurd h (by simp)
  · rename_i hkt
    split at h
    · exact absurd h (by simp)
    · rename_i targetItem hget1t
      have hlen1 : slabLen (slabSet (slabSet (slabInsert (itemFrom v) l.slab).2
          (slabInsert (itemFrom v) l.slab).1
          (some ⟨v, some (slabInsert (itemFrom v) l.slab).1, some t, none⟩)) t
          (some { targetItem with next := some (slabInsert (itemFrom v) l.slab).1 })) =
          slabLen l.slab + 1 := by
        have hg2t : slabGet (slabSet (slabInsert (itemFrom v) l.slab).2
            (slabInsert (itemFrom v) l.slab).1
            (some ⟨v, some (slabInsert (itemFrom v) l.slab).1, some t, none⟩)) t =
            some targetItem := by
          rw [slabGet_slabSet_ne _ _ _ (fun he => hkt he.symm)]
          exact hget1t
        rw [slabLen_slabSet_some hg2t, slabLen_slabSet_some (slabGet_slabInsert_self _ _),
          slabLen_slabInsert]
      split at h
      · split at h
        · rw [Except.ok.injEq, Prod.mk.injEq] at h
          obtain ⟨-, hl1⟩ := h
          subst hl1
          exact ⟨hlen1, fun h0 => absurd (hlen1 ▸ h0) (Nat.succ_ne_zero _)⟩
        · exact absurd h (by simp)
      · rename_i nxt hnext
        split at h
        · exact absurd h (by simp)
        · rename_i nextItem hgetn
          split at h
          · rw [Except.ok.injEq, Prod.mk.injEq] at h
            obtain ⟨-, hl1⟩ := h
            subst hl1
            have hlen2 : slabLen (slabSet (slabSet (slabSet (slabInsert (itemFrom v) l.slab).2
                (slabInsert (itemFrom v) l.slab).1
                (some ⟨v, some (slabInsert (itemFrom v) l.slab).1, some t, none⟩)) t
                (some { targetItem with next := some (slabInsert (itemFrom v) l.slab).1 })) nxt
                (some { nextItem with prev := some (slabInsert (itemFrom v) l.slab).1 })) =
                slabLen l.slab + 1 := by
              rw [slabLen_slabSet_some hgetn, hlen1]
            exact ⟨hlen2, fun h0 => absurd (hlen2 ▸ h0) (Nat.succ_ne_zero _)⟩
          · exact absurd h (by simp)

theorem insertFirstItem_ok_len {l : SlabLinkedList T} {v : T} {k : Nat}
    {l1 : SlabLinkedList T} (h : insertFirstItem l v = .ok (k, l1)) :
    slabLen l1.slab = slabLen l.slab + 1 ∧ SmallInv l1 := by
  simp only [insertFirstItem] at h
  split at h
  · exact absurd h (by simp)
  · split at h
    · exact absurd h (by simp)
    · split at h
      · exact absurd h (by simp)
      · split at h
        · exact absurd h (by simp)
        · rename_i item hgetk
          rw [Except.ok.injEq, Prod.mk.injEq] at h
          obtain ⟨-, hl1⟩ := h
          subst hl1
          have hlen1 : slabLen (slabSet (slabInsert (itemFrom v) l.slab).2
              (slabInsert (itemFrom v) l.slab).1
              (some { item with key := some (slabInsert (itemFrom v) l.slab).1 })) =
              slabLen l.slab + 1 := by
            rw [slabLen_slabSet_some hgetk, slabLen_slabInsert]
          exact ⟨hlen1, fun h0 => absurd (hlen1 ▸ h0) (Nat.succ_ne_zero _)⟩

theorem pushFront_ok_len {l : SlabLinkedList T} {v : T} {k : Nat} {l1 : SlabLinkedList T}
    (h : pushFront l v = .ok (k, l1)) :
    slabLen l1.slab = slabLen l.slab + 1 ∧ SmallInv l1 := by
  unfold pushFront at h
  split at h
  · exact insertFirstItem_ok_len h
  · exact insertBefore_ok_len h

theorem pushBack_ok_len {l : SlabLinkedList T} {v : T} {k : Nat} {l1 : SlabLinkedList T}
    (h : pushBack l v = .ok (k, l1)) :
    slabLen l1.slab = slabLen l.slab + 1 ∧ SmallInv l1 := by
  unfold pushBack at h
  split at h
  · exact insertFirstItem_ok_len h
  · exact insertAfter_ok_len h

theorem remove_to_tryRemove {l : SlabLinkedList T} {k : Nat} {v : T} {l1 : SlabLinkedList T}
    (h : remove l k = .ok (v, l1)) : tryRemove l k = .ok (some v, l1) := by
  unfold remove at h
  split at h
  · exact absurd h (by simp)
  · exact absurd h (by simp)
  · rename_i w l2 heq
    rw [Except.ok.injEq, Prod.mk.injEq] at h
    obtain ⟨hv, hl⟩ := h
    rw [← hv, ← hl]
    exact heq

theorem popFront_ok_cases {l : SlabLinkedList T} {r : Option T} {l1 : SlabLinkedList T}
    (h : popFront l = .ok (r, l1)) :
    (r = none ∧ l1 = l) ∨ (∃ v k, r = some v ∧ tryRemove l k = .ok (some v, l1)) := by
  unfold popFront at h
  split at h
  · rw [Except.ok.injEq, Prod.mk.injEq] at h
    exact Or.inl ⟨h.1.symm, h.2.symm⟩
  · rename_i key hkey
    split at h
    · exact absurd h (by simp)
    · rename_i v l2 heq
      rw [Except.ok.injEq, Prod.mk.injEq] at h
      obtain ⟨hv, hl⟩ := h
      exact Or.inr ⟨v, key, hv.symm, hl ▸ remove_to_tryRemove heq⟩

theorem popBack_ok_cases {l : SlabLinkedList T} {r : Option T} {l1 : SlabLinkedList T}
    (h : popBack l = .ok (r, l1)) :
    (r = none ∧ l1 = l) ∨ (∃ v k, r = some v ∧ tryRemove l k = .ok (some v, l1)) := by
  unfold popBack at h
  split at h
  · rw [Except.ok.injEq, Prod.mk.injEq] at h
    exact Or.inl ⟨h.1.symm, h.2.symm⟩
  · rename_i key hkey
    split at h
    · exact absurd h (by simp)
    · rename_i v l2 heq
      rw [Except.ok.injEq, Prod.mk.injEq] at h
      obtain ⟨hv, hl⟩ := h
      exact Or.inr ⟨v, key, hv.symm, hl ▸ remove_to_tryRemove heq⟩

theorem reachable_smallInv {l : SlabLinkedList T} (h : Reachable l) : SmallInv l := by
  induction h with
  | new => exact fun _ => ⟨rfl, rfl⟩
  | insertBefore hr heq ih => exact (insertBefore_ok_len heq).2
  | insertAfter hr heq ih => exact (insertAfter_ok_len heq).2
  | pushFront hr heq ih => exact (pushFront_ok_len heq).2
  | pushBack hr heq ih => exact (pushBack_ok_len heq).2
  | popFront hr heq ih =>
    rcases popFront_ok_cases heq with ⟨-, rfl⟩ | ⟨v, k, -, htr⟩
    · exact ih
    · rcases tryRemove_ok_cases htr with ⟨hn, -, -⟩ | ⟨item, -, -, -, -, hsi⟩
      · simp at hn
      · exact hsi
  | popBack hr heq ih =>
    rcases popBack_ok_cases heq with ⟨-, rfl⟩ | ⟨v, k, -, htr⟩
    · exact ih
    · rcases tryRemove_ok_cases htr with ⟨hn, -, -⟩ | ⟨item, -, -, -, -, hsi⟩
      · simp at hn
      · exact hsi
  | tryRemove hr heq ih =>
    rcases tryRemove_ok_cases heq with ⟨-, rfl, -⟩ | ⟨item, -, -, -, -, hsi⟩
    · exact ih
    · exact hsi
  | remove hr heq ih =>
    rcases tryRemove_ok_cases (remove_to_tryRemove heq) with ⟨hn, -, -⟩ |
      ⟨item, -, -, -, -, hsi⟩
    · simp at hn
    · exact hsi

/-! ### Keys held in a store -/

theorem slabGet_ge {s : List (Option (Item T))} {k : Nat} (h : s.length ≤ k) :
    slabGet s k = none := by
  induction s generalizing k with
  | nil => rfl
  | cons o rest ih =>
    cases k with
    | zero => simp at h
    | succ k => exact ih (by simpa using h)

theorem mem_keysOf {s : List (Option (Item T))} {k : Nat} :
    k ∈ keysOf s ↔ (slabGet s k).isSome = true := by
  simp only [keysOf, List.mem_filter, List.mem_range, decide_eq_true_eq]
  constructor
  · exact fun h => h.2
  · intro h
    refine ⟨?_, h⟩
    by_contra hlt
    rw [slabGet_ge (Nat.le_of_not_lt hlt)] at h
    cases h

theorem keysOf_nodup (s : List (Option (Item T))) : (keysOf s).Nodup :=
  List.Nodup.filter _ (List.nodup_range _)

/-! ### Length accounting over operation sequences -/

theorem applyOp_len {l : SlabLinkedList T} {op : Op T} {l1 : SlabLinkedList T} {i r : Nat}
    (h : applyOp l op = .ok (l1, i, r)) :
    slabLen l1.slab + r = slabLen l.slab + i := by
  cases op with
  | pushFront v =>
    simp only [applyOp] at h
    split at h
    · exact absurd h (by simp)
    · rename_i k l2 heq
      simp only [Except.ok.injEq, Prod.mk.injEq] at h
      obtain ⟨rfl, rfl, rfl⟩ := h
      have := (pushFront_ok_len heq).1
      omega
  | pushBack v =>
    simp only [applyOp] at h
    split at h
    · exact absurd h (by simp)
    · rename_i k l2 heq
      simp only [Except.ok.injEq, Prod.mk.injEq] at h
      obtain ⟨rfl, rfl, rfl⟩ := h
      have := (pushBack_ok_len heq).1
      omega
  | insertBefore v t =>
    simp only [applyOp] at h
    split at h
    · exact absurd h (by simp)
    · rename_i k l2 heq
      simp only [Except.ok.injEq, Prod.mk.injEq] at h
      obtain ⟨rfl, rfl, rfl⟩ := h
      have := (insertBefore_ok_len heq).1
      omega
  | insertAfter v t =>
    simp only [applyOp] at h
    split at h
    · exact absurd h (by simp)
    · rename_i k l2 heq
      simp only [Except.ok.injEq, Prod.mk.injEq] at h
      obtain ⟨rfl, rfl, rfl⟩ := h
      have := (insertAfter_ok_len heq).1
      omega
  | popFront =>
    simp only [applyOp] at h
    split at h
    · exact absurd h (by simp)
    · rename_i l2 heq
      simp only [Except.ok.injEq, Prod.mk.injEq] at h
      obtain ⟨rfl, rfl, rfl⟩ := h
      rcases popFront_ok_cases heq with ⟨-, rfl⟩ | ⟨v, kk, hv, -⟩
      · omega
      · simp at hv
    · rename_i v l2 heq
      simp only [Except.ok.injEq, Prod.mk.injEq] at h
      obtain ⟨rfl, rfl, rfl⟩ := h
      rcases popFront_ok_cases heq with ⟨hn, -⟩ | ⟨w, kk, hv, htr⟩
      · simp at hn
      · rcases tryRemove_ok_cases htr with ⟨hn2, -, -⟩ | ⟨item, -, -, hlen, -, -⟩
        · simp at hn2
        · omega
  | popBack =>
    simp only [applyOp] at h
    split at h
    · exact absurd h (by simp)
    · rename_i l2 heq
      simp only [Except.ok.injEq, Prod.mk.injEq] at h
      obtain ⟨rfl, rfl, rfl⟩ := h
      rcases popBack_ok_cases heq with ⟨-, rfl⟩ | ⟨v, kk, hv, -⟩
      · omega
      · simp at hv
    · rename_i v l2 heq
      simp only [Except.ok.injEq, Prod.mk.injEq] at h
      obtain ⟨rfl, rfl, rfl⟩ := h
      rcases popBack_ok_cases heq with ⟨hn, -⟩ | ⟨w, kk, hv, htr⟩
      · simp at hn
      · rcases tryRemove_ok_cases htr with ⟨hn2, -, -⟩ | ⟨item, -, -, hlen, -, -⟩
        · simp at hn2
        · omega
  | tryRemove k =>
    simp only [applyOp] at h
    split at h
    · exact absurd h (by simp)
    · rename_i l2 heq
      simp only [Except.ok.injEq, Prod.mk.injEq] at h
      obtain ⟨rfl, rfl, rfl⟩ := h
      rcases tryRemove_ok_cases heq with ⟨-, rfl, -⟩ | ⟨item, hv, -, -, -, -⟩
      · omega
      · simp at hv
    · rename_i v l2 heq
      simp only [Except.ok.injEq, Prod.mk.injEq] at h
      obtain ⟨rfl, rfl, rfl⟩ := h
      rcases tryRemove_ok_cases heq with ⟨hn, -, -⟩ | ⟨item, -, -, hlen, -, -⟩
      · simp at hn
      · omega
  | remove k =>
    simp only [applyOp] at h
    split at h
    · exact absurd h (by simp)
    · rename_i v l2 heq
      simp only [Except.ok.injEq, Prod.mk.injEq] at h
      obtain ⟨rfl, rfl, rfl⟩ := h
      rcases tryRemove_ok_cases (remove_to_tryRemove heq) with ⟨hn, -, -⟩ |
        ⟨item, -, -, hlen, -, -⟩
      · simp at hn
      · omega

theorem runOps_len {ops : List (Op T)} {l : SlabLinkedList T} {lf : SlabLinkedList T}
    {ins rem : Nat} (h : runOps l ops = .ok (lf, ins, rem)) :
    slabLen lf.slab + rem = slabLen l.slab + ins := by
  induction ops generalizing l ins rem with
  | nil =>
    simp only [runOps, Except.ok.injEq, Prod.mk.injEq] at h
    obtain ⟨rfl, rfl, rfl⟩ := h
    rfl
  | cons op ops ih =>
    simp only [runOps] at h
    split at h
    · exact absurd h (by simp)
    · rename_i l1 i r heq1
      split at h
      · exact absurd h (by simp)
      · rename_i l2 is rs heq2
        simp only [Except.ok.injEq, Prod.mk.injEq] at h
        obtain ⟨rfl, rfl, rfl⟩ := h
        have h1 := applyOp_len heq1
        have h2 := ih heq2
        omega

/-! ### Removing all live keys -/

theorem slabLen_eq_length_of_mem {os : List Nat} (hnd : os.Nodup) :
    ∀ {s : List (Option (Item T))},
      (∀ k, k ∈ os ↔ (slabGet s k).isSome = true) → slabLen s = os.length := by
  induction os with
  | nil =>
    intro s hmem
    refine (slabLen_zero_iff s).mpr (fun k => ?_)
    cases hg : slabGet s k with
    | none => rfl
    | some item =>
      have : k ∈ ([] : List Nat) := (hmem k).mpr (by rw [hg]; rfl)
      cases this
  | cons k os ih =>
    intro s hmem
    have hocc : (slabGet s k).isSome = true := (hmem k).mp (List.mem_cons_self _ _)
    obtain ⟨item, hit⟩ := Option.isSome_iff_exists.mp hocc
    have hknos : k ∉ os := (List.nodup_cons.mp hnd).1
    have hrec := ih (List.nodup_cons.mp hnd).2
      (s := slabSet s k none) (fun j => ?_)
    · rw [slabLen_slabSet_none hit, hrec]
      rfl
    · by_cases hjk : j = k
      · subst hjk
        rw [slabGet_slabSet_self hit]
        simp [hknos]
      · rw [slabGet_slabSet_ne _ _ _ hjk]
        rw [← hmem j]
        simp [hjk]

theorem removeAll_len {os : List Nat} (hnd : os.Nodup) :
    ∀ {l l1 : SlabLinkedList T},
      (∀ k, k ∈ os ↔ (slabGet l.slab k).isSome = true) →
      removeAll l os = .ok l1 → slabLen l1.slab = 0 := by
  induction os with
  | nil =>
    intro l l1 hmem h
    simp only [removeAll, Except.ok.injEq] at h
    subst h
    refine (slabLen_zero_iff _).mpr (fun k => ?_)
    cases hg : slabGet l.slab k with
    | none => rfl
    | some item =>
      have : k ∈ ([] : List Nat) := (hmem k).mpr (by rw [hg]; rfl)
      cases this
  | cons k os ih =>
    intro l l1 hmem h
    simp only [removeAll] at h
    split at h
    · exact absurd h (by simp)
    · rename_i v l2 heq
      have htr := remove_to_tryRemove heq
      rcases tryRemove_ok_cases htr with ⟨hn, -, -⟩ | ⟨item, -, -, -, hocc, -⟩
      · simp at hn
      · refine ih (List.nodup_cons.mp hnd).2 (fun j => ?_) h
        rw [hocc j]
        constructor
        · intro hj
          exact ⟨(hmem j).mp (List.mem_cons_of_mem _ hj),
            fun he => (List.nodup_cons.mp hnd).1 (he ▸ hj)⟩
        · rintro ⟨hj, hne⟩
          rcases List.mem_cons.mp ((hmem j).mpr hj) with he | hm
          · exact absurd he hne
          · exact hm

theorem removeAll_reachable {os : List Nat} :
    ∀ {l l1 : SlabLinkedList T}, Reachable l → removeAll l os = .ok l1 → Reachable l1 := by
  induction os with
  | nil =>
    intro l l1 hr h
    simp only [removeAll, Except.ok.injEq] at h
    exact h ▸ hr
  | cons k os ih =>
    intro l l1 hr h
    simp only [removeAll] at h
    split at h
    · exact absurd h (by simp)
    · rename_i v l2 heq
      exact ih (Reachable.remove hr heq) h

/-! ### Concrete reachable states -/

theorem reachable_stateB1 : Reachable stateB1 :=
  Reachable.pushBack Reachable.new
    (show pushBack SlabLinkedList.new 1 = .ok (0, stateB1) from rfl)

theorem reachable_stateB2 : Reachable stateB2 :=
  Reachable.pushBack reachable_stateB1
    (show pushBack stateB1 2 = .ok (1, stateB2) from rfl)

theorem reachable_stateB3 : Reachable stateB3 :=
  Reachable.insertBefore reachable_stateB2
    (show insertBefore stateB2 3 1 = .ok (2, stateB3) from rfl)

theorem reachable_stateA3 : Reachable stateA3 :=
  Reachable.insertAfter reachable_stateB2
    (show insertAfter stateB2 3 0 = .ok (2, stateA3) from rfl)

theorem reachable_stateH3 : Reachable stateH3 :=
  Reachable.pushBack reachable_stateB2
    (show pushBack stateB2 3 = .ok (2, stateH3) from rfl)

/-! ### The claims -/

/-- C1: the claim states that after any public operation on any state
reachable from new, the structural invariants hold (reciprocal links
among them). The code violates this: push_back(1), push_back(2),
insert_before(3, 1) reaches a state in which the record at key 0 has next
pointing at key 2 while the record at key 2 has prev = none, because
insert_before never writes the prev field of the new record. -/
theorem c1_invariant_violation :
    Reachable stateB3 ∧
    slabGet stateB3.slab 0 = some ⟨1, some 0, none, some 2⟩ ∧
    slabGet stateB3.slab 2 = some ⟨3, some 2, none, some 1⟩ ∧
    ¬ StructInv stateB3 := by
  refine ⟨reachable_stateB3, rfl, rfl, ?_⟩
  intro hinv
  obtain ⟨-, -, -, hnextrec, -⟩ := hinv
  obtain ⟨nitem, hn, hp⟩ := hnextrec 0 ⟨1, some 0, none, some 2⟩ 2 rfl rfl
  have hnval : nitem = ⟨3, some 2, none, some 1⟩ := by
    have h2 := hn.symm.trans (show slabGet stateB3.slab 2 = some ⟨3, some 2, none, some 1⟩
      from rfl)
    exact Option.some.inj h2
  subst hnval
  simp at hp

/-- C2: the claim states that try_remove on a live key returns the
payload and relinks, with no failure. The code violates this on a
reachable state: after push_back(1), push_back(2), insert_before(3, 1),
key 2 is live, yet try_remove(2) hits the head case (because the record
prev field was never set) and panics on the assertion that the old head
equals the removed key; the panic state is recorded by the error value. -/
theorem c2_tryRemove_panic :
    Reachable stateB3 ∧ (slabGet stateB3.slab 2).isSome = true ∧
    tryRemove stateB3 2 = .error ⟨[some ⟨1, some 0, none, some 2⟩,
      some ⟨2, some 1, none, none⟩, none], some 1, some 1⟩ :=
  ⟨reachable_stateB3, rfl, rfl⟩

/-- C3: the claim states that insert_before sets the prev field of the
new record to the former predecessor of the target (symmetrically that
insert_after sets the next field of the new record to the former
successor). The code never writes those fields: after push_back(1),
push_back(2), inserting before key 1 (whose predecessor is key 0) leaves
the new record with prev = none, and inserting after key 0 (whose
successor is key 1) leaves the new record with next = none. -/
theorem c3_insert_neighbor_not_set :
    Reachable stateB2 ∧
    slabGet stateB2.slab 1 = some ⟨2, some 1, some 0, none⟩ ∧
    insertBefore stateB2 3 1 = .ok (2, stateB3) ∧
    slabGet stateB3.slab 2 = some ⟨3, some 2, none, some 1⟩ ∧
    (⟨3, some 2, none, some 1⟩ : Item Nat).prev ≠ some 0 ∧
    slabGet stateB2.slab 0 = some ⟨1, some 0, none, some 1⟩ ∧
    insertAfter stateB2 3 0 = .ok (2, stateA3) ∧
    slabGet stateA3.slab 2 = some ⟨3, some 2, some 0, none⟩ ∧
    (⟨3, some 2, some 0, none⟩ : Item Nat).next ≠ some 1 := by
  refine ⟨reachable_stateB2, rfl, rfl, rfl, ?_, rfl, rfl, rfl, ?_⟩ <;> simp

/-- C4: starting from the empty list, pushing v1 .. vn with push_front
and then popping from the front yields vn .. v1, and pushing with
push_back only and then popping from the front yields v1 .. vn. -/
theorem c4_order (vs : List T) :
    (∃ l lf, pushFrontAll SlabLinkedList.new vs = .ok l ∧
      popFrontN l vs.length = .ok (vs.reverse, lf)) ∧
    (∃ l lf, pushBackAll SlabLinkedList.new vs = .ok l ∧
      popFrontN l vs.length = .ok (vs, lf)) := by
  constructor
  · obtain ⟨l1, ks1, heq, hmod, hvals⟩ := pushFrontAll_ok models_new vs
    have hvals2 : valsOf l1.slab ks1 = vs.reverse := by
      rw [hvals]
      simp [valsOf]
    have hlenks : ks1.length = vs.length := by
      have h1 := valsOf_length (fun k hk => (hmod.mem_iff k).mpr hk)
      rw [hvals2] at h1
      simpa using h1.symm
    obtain ⟨lf, hpop, -⟩ := popFrontN_ok hmod
    refine ⟨l1, lf, heq, ?_⟩
    rw [← hlenks, ← hvals2]
    exact hpop
  · obtain ⟨l1, ks1, heq, hmod, hvals⟩ := pushBackAll_ok models_new vs
    have hvals2 : valsOf l1.slab ks1 = vs := by
      rw [hvals]
      simp [valsOf]
    have hlenks : ks1.length = vs.length := by
      have h1 := valsOf_length (fun k hk => (hmod.mem_iff k).mpr hk)
      rw [hvals2] at h1
      exact h1.symm
    obtain ⟨lf, hpop, -⟩ := popFrontN_ok hmod
    refine ⟨l1, lf, heq, ?_⟩
    rw [← hlenks, ← hvals2]
    exact hpop

/-- C5: after any sequence of operations run from new that completes
without panic, len equals the number of insertions minus the number of
successful removals, and is_empty holds exactly when len is zero. -/
theorem c5_length {ops : List (Op T)} {l : SlabLinkedList T} {ins rem : Nat}
    (h : runOps SlabLinkedList.new ops = .ok (l, ins, rem)) :
    len l = ins - rem ∧ rem ≤ ins ∧ (isEmpty l = true ↔ len l = 0) := by
  have h1 := runOps_len h
  have h2 : slabLen (SlabLinkedList.new : SlabLinkedList T).slab = 0 := rfl
  refine ⟨?_, by omega, ?_⟩
  · show slabLen l.slab = ins - rem
    omega
  · show (slabLen l.slab == 0) = true ↔ slabLen l.slab = 0
    simp

theorem c5_length_witness :
    len (⟨[none, none], none, none⟩ : SlabLinkedList Nat) = 2 - 2 ∧ (2 : Nat) ≤ 2 ∧
      (isEmpty (⟨[none, none], none, none⟩ : SlabLinkedList Nat) = true ↔
        len (⟨[none, none], none, none⟩ : SlabLinkedList Nat) = 0) :=
  c5_length (show runOps SlabLinkedList.new
    [Op.pushBack (5 : Nat), Op.pushFront 6, Op.tryRemove 0, Op.popBack, Op.tryRemove 99] =
    .ok (⟨[none, none], none, none⟩, 2, 2) from rfl)

/-- C6: the claim states that an InvalidKey failure mutates nothing, not
even store content. In the code the new record is inserted into the store
before the target key is validated, so at the moment insert_before panics
on an absent target the store already holds one more record than before:
the failure state has store length 2 while the starting state has store
length 1. -/
theorem c6_counterexample :
    Reachable stateB1 ∧ slabGet stateB1.slab 5 = none ∧
    insertBefore stateB1 9 5 =
      .error ⟨[some ⟨1, some 0, none, none⟩, some ⟨9, none, none, none⟩], some 0, some 0⟩ ∧
    slabLen (⟨[some ⟨1, some 0, none, none⟩, some ⟨9, none, none, none⟩],
      some 0, some 0⟩ : SlabLinkedList Nat).slab ≠ slabLen stateB1.slab :=
  ⟨reachable_stateB1, rfl, rfl, by decide⟩

/-- C6 amended: an InvalidKey failure of remove leaves the structure
entirely unchanged; an InvalidKey failure of insert_before or
insert_after leaves head, tail and every pre-existing record (links
included) unchanged, but the new record holding the value has already
been inserted into the store when the failure occurs. -/
theorem c6_invalid_key_mutation {l : SlabLinkedList T} (v : T) (t : Nat)
    (h : slabGet l.slab t = none) :
    (∃ e, insertBefore l v t = .error e ∧ e.head = l.head ∧ e.tail = l.tail ∧
      slabGet e.slab (slabInsert (itemFrom v) l.slab).1 = some (itemFrom v) ∧
      (∀ j, j ≠ (slabInsert (itemFrom v) l.slab).1 → slabGet e.slab j = slabGet l.slab j)) ∧
    (∃ e, insertAfter l v t = .error e ∧ e.head = l.head ∧ e.tail = l.tail ∧
      slabGet e.slab (slabInsert (itemFrom v) l.slab).1 = some (itemFrom v) ∧
      (∀ j, j ≠ (slabInsert (itemFrom v) l.slab).1 → slabGet e.slab j = slabGet l.slab j)) ∧
    remove l t = .error l :=
  ⟨⟨_, insertBefore_miss h, rfl, rfl, slabGet_slabInsert_self _ _,
      fun j hj => slabGet_slabInsert_ne _ _ hj⟩,
    ⟨_, insertAfter_miss h, rfl, rfl, slabGet_slabInsert_self _ _,
      fun j hj => slabGet_slabInsert_ne _ _ hj⟩,
    remove_miss h⟩

theorem c6_invalid_key_mutation_witness :
    slabGet stateB1.slab 5 = none ∧
    ((∃ e, insertBefore stateB1 9 5 = .error e ∧ e.head = stateB1.head ∧
        e.tail = stateB1.tail ∧
        slabGet e.slab (slabInsert (itemFrom 9) stateB1.slab).1 = some (itemFrom 9) ∧
        (∀ j, j ≠ (slabInsert (itemFrom 9) stateB1.slab).1 →
          slabGet e.slab j = slabGet stateB1.slab j)) ∧
      (∃ e, insertAfter stateB1 9 5 = .error e ∧ e.head = stateB1.head ∧
        e.tail = stateB1.tail ∧
        slabGet e.slab (slabInsert (itemFrom 9) stateB1.slab).1 = some (itemFrom 9) ∧
        (∀ j, j ≠ (slabInsert (itemFrom 9) stateB1.slab).1 →
          slabGet e.slab j = slabGet stateB1.slab j)) ∧
      remove stateB1 5 = .error stateB1) :=
  ⟨rfl, c6_invalid_key_mutation 9 5 rfl⟩

/-- C7: the claim states that insert_before, insert_after and remove
fail exactly on keys absent from the store and succeed otherwise. The
code violates the succeed direction on a reachable state: after
push_back(1), push_back(2), insert_after(3, 0), key 1 is live, yet
insert_before(4, 1) panics on the assertion about the predecessor next
field (the record at key 2 has next = none because insert_after never
wrote it); the panic state is recorded by the error value. -/
theorem c7_invalid_key_exactness :
    Reachable stateA3 ∧ (slabGet stateA3.slab 1).isSome = true ∧
    insertBefore stateA3 4 1 = .error ⟨[some ⟨1, some 0, none, some 2⟩,
      some ⟨2, some 1, some 3, none⟩, some ⟨3, some 2, some 0, some 3⟩,
      some ⟨4, some 3, none, some 1⟩], some 0, some 1⟩ :=
  ⟨reachable_stateA3, rfl, rfl⟩

/-- C8: on every reachable state, try_remove on an absent key returns
none and leaves the state unchanged, and pop_front and pop_back on an
empty list return none and leave the state unchanged; none of these
fail. -/
theorem c8_graceful_miss {l : SlabLinkedList T} (hr : Reachable l) :
    (∀ k, slabGet l.slab k = none → tryRemove l k = .ok (none, l)) ∧
    (isEmpty l = true → popFront l = .ok (none, l) ∧ popBack l = .ok (none, l)) := by
  refine ⟨fun k hk => tryRemove_miss hk, fun hemp => ?_⟩
  have hlen0 : slabLen l.slab = 0 := by
    have h2 : (slabLen l.slab == 0) = true := hemp
    simpa using h2
  obtain ⟨hh, ht⟩ := reachable_smallInv hr hlen0
  constructor
  · simp only [popFront, hh]
  · simp only [popBack, ht]

theorem c8_graceful_miss_witness :
    (∀ k, slabGet (SlabLinkedList.new : SlabLinkedList Nat).slab k = none →
      tryRemove (SlabLinkedList.new : SlabLinkedList Nat) k =
        .ok (none, SlabLinkedList.new)) ∧
    (isEmpty (SlabLinkedList.new : SlabLinkedList Nat) = true →
      popFront (SlabLinkedList.new : SlabLinkedList Nat) = .ok (none, SlabLinkedList.new) ∧
      popBack (SlabLinkedList.new : SlabLinkedList Nat) = .ok (none, SlabLinkedList.new)) :=
  c8_graceful_miss Reachable.new

/-- C9: from any reachable state, removing all live keys one by one, in
any order, through removals that all succeed leaves head = none,
tail = none and len = 0. -/
theorem c9_remove_all {l l1 : SlabLinkedList T} {os : List Nat} (hr : Reachable l)
    (hperm : os.Perm (keysOf l.slab)) (h : removeAll l os = .ok l1) :
    l1.head = none ∧ l1.tail = none ∧ len l1 = 0 := by
  have hnd : os.Nodup := hperm.nodup_iff.mpr (keysOf_nodup _)
  have hmem : ∀ k, k ∈ os ↔ (slabGet l.slab k).isSome = true :=
    fun k => (hperm.mem_iff).trans mem_keysOf
  have hlen0 : slabLen l1.slab = 0 := removeAll_len hnd hmem h
  obtain ⟨hh, ht⟩ := reachable_smallInv (removeAll_reachable hr h) hlen0
  exact ⟨hh, ht, hlen0⟩

theorem c9_remove_all_witness :
    List.Perm [1, 0, 2] (keysOf stateH3.slab) ∧
    ((⟨[none, none, none], none, none⟩ : SlabLinkedList Nat).head = none ∧
      (⟨[none, none, none], none, none⟩ : SlabLinkedList Nat).tail = none ∧
      len (⟨[none, none, none], none, none⟩ : SlabLinkedList Nat) = 0) :=
  ⟨by decide, c9_remove_all reachable_stateH3 (by decide)
    (show removeAll stateH3 [1, 0, 2] = .ok ⟨[none, none, none], none, none⟩ from rfl)⟩

/-- C10: the claim states that on reachable states head and tail always
point at occupied slots and every internal assertion of the operations is
unreachable. The code violates the assertion part: after push_back(1),
push_back(2), insert_before(3, 1), the key 0 is live but try_remove(0)
panics on the assertion that the prev field of the successor points back
at the removed key (it is none, because insert_before never wrote it);
the panic state is recorded by the error value. -/
theorem c10_assert_reachable :
    Reachable stateB3 ∧ (slabGet stateB3.slab 0).isSome = true ∧
    tryRemove stateB3 0 = .error ⟨[none, some ⟨2, some 1, some 2, none⟩,
      some ⟨3, some 2, none, some 1⟩], some 0, some 1⟩ :=
  ⟨reachable_stateB3, rfl, rfl⟩

end SlabList
